import Mathlib

/-!
Shallow embedding of the matching-engine core (src/include/Common.h, Order.h,
OrderBook.h, src/src/Order.cpp, OrderBook.cpp, MatchingEngine.cpp).

Machine integers: `Price` is C++ `int64_t`, modelled as `Int`; `Quantity` and
`OrderId` are `uint64_t`, modelled as `Nat` (all reachable values in the claims
are far from 2^64 and the only subtraction, on level totals, never underflows,
so truncated `Nat` subtraction agrees with the machine arithmetic).

`std::map<Price, PriceLevel>` (with `greater`/`less` comparators) is modelled
as an association list sorted descending (bids) / ascending (asks); insertion
keeps the order, matching the iteration order of the C++ map.

`OrderBook::orderMap_` holds `shared_ptr`s to the very objects stored in the
level FIFO queues, and every operation in OrderBook.cpp updates the map and
the queues together (addOrder, cancelOrder, modifyOrder, the sweep's erase of
fully filled makers, and the resting step of matchLimitOrder).  The index is
therefore represented as the derived set of ids present in the queues; the
queues are the single source of truth for the shared order state.

Timestamps (`Order::timestamp_`, `Trade::timestamp_`) and the symbol string on
trades are irrelevant to every claim (FIFO priority comes from queue order,
not from timestamps) and are omitted from the records.
-/

namespace MatchingEngine

abbrev OrderId := Nat
abbrev Price := Int
abbrev Quantity := Nat

inductive Side where
  | BUY
  | SELL
deriving DecidableEq

inductive OrderType where
  | MARKET
  | LIMIT
  | STOP_LOSS
  | STOP_LIMIT
  | IOC
  | FOK
deriving DecidableEq

inductive OrderStatus where
  | PENDING
  | PARTIAL_FILL
  | FILLED
  | CANCELLED
  | REJECTED
deriving DecidableEq

structure Order where
  orderId : OrderId
  side : Side
  otype : OrderType
  price : Price
  quantity : Quantity
  remainingQuantity : Quantity
  stopPrice : Price
  status : OrderStatus
deriving DecidableEq

/-- `Order::Order(...)`: `remainingQuantity_ = quantity`, `status_ = PENDING`. -/
def mkOrder (orderId : OrderId) (side : Side) (otype : OrderType)
    (price : Price) (quantity : Quantity) (stopPrice : Price := 0) : Order :=
  { orderId := orderId, side := side, otype := otype, price := price,
    quantity := quantity, remainingQuantity := quantity,
    stopPrice := stopPrice, status := OrderStatus.PENDING }

/-- `Order::fill`: clamp to `remainingQuantity_`, subtract, then FILLED when
remaining hits 0, else PARTIAL_FILL once any fill has happened. -/
def Order.fill (o : Order) (q : Quantity) : Order :=
  let q' := min q o.remainingQuantity
  let rem := o.remainingQuantity - q'
  { o with
    remainingQuantity := rem
    status :=
      if rem = 0 then OrderStatus.FILLED
      else if rem < o.quantity then OrderStatus.PARTIAL_FILL
      else o.status }

/-- `Order::isFilled`. -/
def Order.isFilled (o : Order) : Prop := o.remainingQuantity = 0

instance (o : Order) : Decidable o.isFilled := by
  unfold Order.isFilled; infer_instance

/-- `Order::isActive`: status is PENDING or PARTIAL_FILL. -/
def Order.isActive (o : Order) : Prop :=
  o.status = OrderStatus.PENDING ∨ o.status = OrderStatus.PARTIAL_FILL

instance (o : Order) : Decidable o.isActive := by
  unfold Order.isActive; infer_instance

/-- Trade record (Trade.h); symbol and timestamp carry no information used by
any claim and are dropped. -/
structure Trade where
  buyOrderId : OrderId
  sellOrderId : OrderId
  price : Price
  quantity : Quantity
deriving DecidableEq

/-- `PriceLevel`: FIFO queue plus the maintained aggregate.  The `price_`
field is never read on the matching paths (the map key and the stored orders
carry the price) and the `orderMap_` id index is only an O(1) lookup aid for
the queue, so both are omitted. -/
structure PriceLevel where
  totalQuantity : Quantity
  orders : List Order
deriving DecidableEq

def PriceLevel.empty : PriceLevel := { totalQuantity := 0, orders := [] }

/-- `PriceLevel::addOrder`: append to the FIFO queue, add the order's current
remaining quantity to the aggregate. -/
def PriceLevel.addOrder (lvl : PriceLevel) (o : Order) : PriceLevel :=
  { totalQuantity := lvl.totalQuantity + o.remainingQuantity,
    orders := lvl.orders ++ [o] }

/-- `PriceLevel::removeOrder`: if an order with this id is present, subtract
its current remaining quantity from the aggregate and erase it; otherwise do
nothing. -/
def PriceLevel.removeOrder (lvl : PriceLevel) (orderId : OrderId) : PriceLevel :=
  match lvl.orders.find? (fun o => o.orderId = orderId) with
  | none => lvl
  | some o =>
      { totalQuantity := lvl.totalQuantity - o.remainingQuantity,
        orders := lvl.orders.eraseP (fun x => x.orderId = orderId) }

def PriceLevel.isEmpty (lvl : PriceLevel) : Prop := lvl.orders = []

instance (lvl : PriceLevel) : Decidable lvl.isEmpty := by
  unfold PriceLevel.isEmpty; infer_instance

/-- One side of the book: association list `Price → PriceLevel` in the map's
iteration order (bids: descending; asks: ascending). -/
abbrev BookSide := List (Price × PriceLevel)

/-- `levels[price].addOrder(order)` on a `std::map` side whose iteration order
is given by `before` (`before p q` means `p` is iterated strictly before `q`):
find or create the level keyed `p`, keeping the key order. -/
def sideInsert (before : Price → Price → Bool) (p : Price) (o : Order) :
    BookSide → BookSide
  | [] => [(p, PriceLevel.empty.addOrder o)]
  | (q, l) :: rest =>
      if p = q then (q, l.addOrder o) :: rest
      else if before p q then (p, PriceLevel.empty.addOrder o) :: (q, l) :: rest
      else (q, l) :: sideInsert before p o rest

/-- bids: `std::greater` — higher price iterates first. -/
def bidBefore (p q : Price) : Bool := decide (q < p)

/-- asks: `std::less` — lower price iterates first. -/
def askBefore (p q : Price) : Bool := decide (p < q)

/-- `levels.find(p)` returning the level. -/
def sideFind (s : BookSide) (p : Price) : Option PriceLevel :=
  (s.find? (fun ql => ql.1 = p)).map (fun ql => ql.2)

/-- The cancel/modify removal step: locate the level at `p`; if found, run
`PriceLevel::removeOrder` and erase the level when its queue became empty. -/
def sideRemoveOrder (p : Price) (orderId : OrderId) : BookSide → BookSide
  | [] => []
  | (q, l) :: rest =>
      if q = p then
        let l' := l.removeOrder orderId
        if l'.isEmpty then rest else (q, l') :: rest
      else (q, l) :: sideRemoveOrder p orderId rest

/-- All orders resting on one side, in level-iteration order then FIFO order. -/
def sideOrders (s : BookSide) : List Order :=
  s.flatMap (fun pl => pl.2.orders)

/-- `OrderBook` state for one symbol (mutex and symbol string omitted). -/
structure OrderBook where
  bids : BookSide
  asks : BookSide
deriving DecidableEq

def OrderBook.empty : OrderBook := { bids := [], asks := [] }

def OrderBook.allOrders (b : OrderBook) : List Order :=
  sideOrders b.bids ++ sideOrders b.asks

/-- `orderMap_.find(id)`: the index holds exactly the orders resting in the
queues (see the header comment), so lookup searches the queues. -/
def OrderBook.findOrder (b : OrderBook) (orderId : OrderId) : Option Order :=
  b.allOrders.find? (fun o => o.orderId = orderId)

/-- `OrderBook::getOrder`. -/
def OrderBook.getOrder (b : OrderBook) (orderId : OrderId) : Option Order :=
  b.findOrder orderId

/-- `OrderBook::addOrder`: record in the index, insert on the order's side at
its price.  No matching. -/
def OrderBook.addOrder (b : OrderBook) (o : Order) : OrderBook :=
  if o.side = Side.BUY then
    { b with bids := sideInsert bidBefore o.price o b.bids }
  else
    { b with asks := sideInsert askBefore o.price o b.asks }

/-- `OrderBook::cancelOrder`: not-found returns false; otherwise the order
(whose status is set to CANCELLED — a mutation of the departing order object,
not of the book) is removed from the level at its price on its side, the
level is erased when empty, and the index entry goes away with the queue
entry. -/
def OrderBook.cancelOrder (b : OrderBook) (orderId : OrderId) : Bool × OrderBook :=
  match b.findOrder orderId with
  | none => (false, b)
  | some o =>
      if o.side = Side.BUY then
        (true, { b with bids := sideRemoveOrder o.price orderId b.bids })
      else
        (true, { b with asks := sideRemoveOrder o.price orderId b.asks })

/-- `OrderBook::modifyOrder`: remove from the current level, set price and
quantity (`setQuantity` resets remaining), status back to PENDING, re-insert
at the new price on the same side.  No matching. -/
def OrderBook.modifyOrder (b : OrderBook) (orderId : OrderId)
    (newPrice : Price) (newQuantity : Quantity) : Bool × OrderBook :=
  match b.findOrder orderId with
  | none => (false, b)
  | some o =>
      let o' := { o with price := newPrice, quantity := newQuantity,
                         remainingQuantity := newQuantity,
                         status := OrderStatus.PENDING }
      if o.side = Side.BUY then
        let bids1 := sideRemoveOrder o.price orderId b.bids
        (true, { b with bids := sideInsert bidBefore newPrice o' bids1 })
      else
        let asks1 := sideRemoveOrder o.price orderId b.asks
        (true, { b with asks := sideInsert askBefore newPrice o' asks1 })

/-- The price-compatibility break test at the top of the two `executeMatches`
overloads: applied ONLY when the incoming order's type is LIMIT; the asks
overload additionally requires side BUY and the bids overload side SELL. -/
def sweepBreak (isAsks : Bool) (taker : Order) (p : Price) : Bool :=
  if isAsks then
    decide (taker.otype = OrderType.LIMIT ∧ taker.side = Side.BUY ∧ taker.price < p)
  else
    decide (taker.otype = OrderType.LIMIT ∧ taker.side = Side.SELL ∧ p < taker.price)

/-- Trade construction inside the sweep: buy id is the taker's when the taker
buys, otherwise the maker's, and symmetrically; price is the PASSIVE order's
price. -/
def mkTrade (taker maker : Order) (fillQty : Quantity) : Trade :=
  { buyOrderId := if taker.side = Side.BUY then taker.orderId else maker.orderId,
    sellOrderId := if taker.side = Side.SELL then taker.orderId else maker.orderId,
    price := maker.price,
    quantity := fillQty }

/-- Inner loop of `executeMatches` over one level's FIFO queue: while the
taker has remaining quantity, fill `min` against the head, emit the trade,
erase fully filled makers (also dropping their index entry), keep partially
filled ones. -/
def executeFills (taker : Order) : List Order → Order × List Trade × List Order
  | [] => (taker, [], [])
  | m :: ms =>
      if taker.remainingQuantity = 0 then (taker, [], m :: ms)
      else
        let fillQty := min taker.remainingQuantity m.remainingQuantity
        let t := mkTrade taker m fillQty
        let taker1 := taker.fill fillQty
        let m1 := m.fill fillQty
        if m1.isFilled then
          let r := executeFills taker1 ms
          (r.1, t :: r.2.1, r.2.2)
        else
          let r := executeFills taker1 ms
          (r.1, t :: r.2.1, m1 :: r.2.2)

/-- Outer loop of `executeMatches` over the opposite side's levels, best
first: stop when the taker is done or the (LIMIT-only) price check breaks;
run the queue loop; erase the level when its queue emptied.  NOTE (faithful
to the source): the level's `totalQuantity_` is NOT updated by the fills —
a partially consumed level keeps its pre-sweep aggregate. -/
def executeMatches (isAsks : Bool) (taker : Order) :
    BookSide → Order × List Trade × BookSide
  | [] => (taker, [], [])
  | (p, lvl) :: rest =>
      if taker.remainingQuantity = 0 then (taker, [], (p, lvl) :: rest)
      else if sweepBreak isAsks taker p then (taker, [], (p, lvl) :: rest)
      else
        let r1 := executeFills taker lvl.orders
        let r2 := executeMatches isAsks r1.1 rest
        if r1.2.2 = [] then (r2.1, r1.2.1 ++ r2.2.1, r2.2.2)
        else
          (r2.1, r1.2.1 ++ r2.2.1,
            (p, { totalQuantity := lvl.totalQuantity, orders := r1.2.2 }) :: r2.2.2)

/-- Result of `matchOrder`: the incoming order's final state, the emitted
trades, and the book after the call. -/
structure MatchResult where
  taker : Order
  trades : List Trade
  book : OrderBook
deriving DecidableEq

/-- `OrderBook::matchMarketOrder`: sweep the opposite side, then cancel any
unfilled portion; never rests. -/
def OrderBook.matchMarketOrder (b : OrderBook) (o : Order) : MatchResult :=
  let r :=
    if o.side = Side.BUY then
      let s := executeMatches true o b.asks
      (s.1, s.2.1, { b with asks := s.2.2 })
    else
      let s := executeMatches false o b.bids
      (s.1, s.2.1, { b with bids := s.2.2 })
  let o1 := r.1
  let o2 := if 0 < o1.remainingQuantity
            then { o1 with status := OrderStatus.CANCELLED } else o1
  { taker := o2, trades := r.2.1, book := r.2.2 }

/-- `OrderBook::matchLimitOrder`: sweep, then rest the residual on the
order's own side at its price when it is still active. -/
def OrderBook.matchLimitOrder (b : OrderBook) (o : Order) : MatchResult :=
  if o.side = Side.BUY then
    let s := executeMatches true o b.asks
    let b1 : OrderBook := { b with asks := s.2.2 }
    if 0 < s.1.remainingQuantity ∧ s.1.isActive then
      { taker := s.1, trades := s.2.1,
        book := { b1 with bids := sideInsert bidBefore s.1.price s.1 b1.bids } }
    else
      { taker := s.1, trades := s.2.1, book := b1 }
  else
    let s := executeMatches false o b.bids
    let b1 : OrderBook := { b with bids := s.2.2 }
    if 0 < s.1.remainingQuantity ∧ s.1.isActive then
      { taker := s.1, trades := s.2.1,
        book := { b1 with asks := sideInsert askBefore s.1.price s.1 b1.asks } }
    else
      { taker := s.1, trades := s.2.1, book := b1 }

/-- `OrderBook::matchIOCOrder`: sweep, cancel residual, never rests. -/
def OrderBook.matchIOCOrder (b : OrderBook) (o : Order) : MatchResult :=
  let r :=
    if o.side = Side.BUY then
      let s := executeMatches true o b.asks
      (s.1, s.2.1, { b with asks := s.2.2 })
    else
      let s := executeMatches false o b.bids
      (s.1, s.2.1, { b with bids := s.2.2 })
  let o1 := r.1
  let o2 := if 0 < o1.remainingQuantity
            then { o1 with status := OrderStatus.CANCELLED } else o1
  { taker := o2, trades := r.2.1, book := r.2.2 }

/-- The availability pre-check of `matchFOKOrder` (`canFillEntireOrder`):
walk the opposite levels best first, applying the price check only for LIMIT
or FOK types, accumulate the levels' (possibly stale) `totalQuantity_`, and
succeed as soon as the accumulator reaches the order's remaining quantity. -/
def canFillLoop (isAsks : Bool) (o : Order) (acc : Quantity) :
    BookSide → Bool
  | [] => false
  | (p, lvl) :: rest =>
      if (o.otype = OrderType.LIMIT ∨ o.otype = OrderType.FOK) ∧
         (if isAsks then o.side = Side.BUY ∧ o.price < p
          else o.side = Side.SELL ∧ p < o.price) then
        false
      else
        let acc1 := acc + lvl.totalQuantity
        if o.remainingQuantity ≤ acc1 then true
        else canFillLoop isAsks o acc1 rest

def OrderBook.canFillEntireOrder (b : OrderBook) (o : Order) : Bool :=
  if o.side = Side.BUY then canFillLoop true o 0 b.asks
  else canFillLoop false o 0 b.bids

/-- `OrderBook::matchFOKOrder`: cancel with no trades when the pre-check
fails, otherwise sweep. -/
def OrderBook.matchFOKOrder (b : OrderBook) (o : Order) : MatchResult :=
  if b.canFillEntireOrder o then
    if o.side = Side.BUY then
      let s := executeMatches true o b.asks
      { taker := s.1, trades := s.2.1, book := { b with asks := s.2.2 } }
    else
      let s := executeMatches false o b.bids
      { taker := s.1, trades := s.2.1, book := { b with bids := s.2.2 } }
  else
    { taker := { o with status := OrderStatus.CANCELLED }, trades := [], book := b }

/-- `OrderBook::matchOrder` dispatch; STOP_LOSS and STOP_LIMIT are routed to
`matchLimitOrder`. -/
def OrderBook.matchOrder (b : OrderBook) (o : Order) : MatchResult :=
  match o.otype with
  | OrderType.MARKET => b.matchMarketOrder o
  | OrderType.LIMIT => b.matchLimitOrder o
  | OrderType.IOC => b.matchIOCOrder o
  | OrderType.FOK => b.matchFOKOrder o
  | OrderType.STOP_LOSS => b.matchLimitOrder o
  | OrderType.STOP_LIMIT => b.matchLimitOrder o

/-- `OrderBook::getBestBid`: first key of bids or 0. -/
def OrderBook.getBestBid (b : OrderBook) : Price :=
  match b.bids with
  | [] => 0
  | (p, _) :: _ => p

/-- `OrderBook::getBestAsk`: first key of asks or 0. -/
def OrderBook.getBestAsk (b : OrderBook) : Price :=
  match b.asks with
  | [] => 0
  | (p, _) :: _ => p

/-- `OrderBook::getBidQuantityAtLevel`. -/
def OrderBook.getBidQuantityAtLevel (b : OrderBook) (p : Price) : Quantity :=
  match sideFind b.bids p with
  | some lvl => lvl.totalQuantity
  | none => 0

/-- `OrderBook::getAskQuantityAtLevel`. -/
def OrderBook.getAskQuantityAtLevel (b : OrderBook) (p : Price) : Quantity :=
  match sideFind b.asks p with
  | some lvl => lvl.totalQuantity
  | none => 0

/-- First-match association-list lookup (`find` on the C++ maps). -/
def lookupAssoc {α β : Type} [DecidableEq α] (l : List (α × β)) (k : α) : Option β :=
  (l.find? (fun kv => kv.1 = k)).map (fun kv => kv.2)

/-- Replace the value stored under an existing key. -/
def updateAssoc {α β : Type} [DecidableEq α] (l : List (α × β)) (k : α) (v : β) :
    List (α × β) :=
  l.map (fun kv => if kv.1 = k then (k, v) else kv)

/-- `erase(k)`. -/
def eraseAssoc {α β : Type} [DecidableEq α] (l : List (α × β)) (k : α) :
    List (α × β) :=
  l.eraseP (fun kv => kv.1 = k)

/-- `MatchingEngineCore` state (MatchingEngine.cpp): the per-symbol book
registry, the `orderToSymbol_` routing map and the id counter.  The atomic
statistics counters and the callbacks play no part in any claim.  New
`orderToSymbol_` entries are appended; ids minted from the monotonic counter
are fresh, so first-match lookup agrees with the C++ overwrite-on-assign. -/
structure EngineState where
  books : List (String × OrderBook)
  orderToSymbol : List (OrderId × String)
  nextOrderId : OrderId

def EngineState.empty : EngineState :=
  { books := [], orderToSymbol := [], nextOrderId := 1 }

/-- `MatchingEngineCore::submitOrder`: mint the id, create the order, get or
create the book, record the routing entry, match, return the id (trade and
order callbacks omitted). -/
def EngineState.submitOrder (e : EngineState) (symbol : String) (side : Side)
    (otype : OrderType) (price : Price) (quantity : Quantity)
    (stopPrice : Price := 0) : OrderId × EngineState :=
  let orderId := e.nextOrderId
  let o := mkOrder orderId side otype price quantity stopPrice
  let books0 :=
    match lookupAssoc e.books symbol with
    | some _ => e.books
    | none => e.books ++ [(symbol, OrderBook.empty)]
  let b := (lookupAssoc books0 symbol).getD OrderBook.empty
  let r := b.matchOrder o
  (orderId,
    { books := updateAssoc books0 symbol r.book,
      orderToSymbol := e.orderToSymbol ++ [(orderId, symbol)],
      nextOrderId := orderId + 1 })

/-- `MatchingEngineCore::cancelOrder`: resolve the symbol (false when the id
is unknown), resolve the book (false when missing), dispatch, and erase the
routing entry only on success. -/
def EngineState.cancelOrder (e : EngineState) (orderId : OrderId) :
    Bool × EngineState :=
  match lookupAssoc e.orderToSymbol orderId with
  | none => (false, e)
  | some symbol =>
      match lookupAssoc e.books symbol with
      | none => (false, e)
      | some b =>
          let r := b.cancelOrder orderId
          if r.1 then
            (true, { e with books := updateAssoc e.books symbol r.2,
                            orderToSymbol := eraseAssoc e.orderToSymbol orderId })
          else
            (false, { e with books := updateAssoc e.books symbol r.2 })

/-- `MatchingEngineCore::modifyOrder`: like cancel but the routing entry is
always retained. -/
def EngineState.modifyOrder (e : EngineState) (orderId : OrderId)
    (newPrice : Price) (newQuantity : Quantity) : Bool × EngineState :=
  match lookupAssoc e.orderToSymbol orderId with
  | none => (false, e)
  | some symbol =>
      match lookupAssoc e.books symbol with
      | none => (false, e)
      | some b =>
          let r := b.modifyOrder orderId newPrice newQuantity
          (r.1, { e with books := updateAssoc e.books symbol r.2 })

/-- `MatchingEngineCore::getOrder`: resolve symbol then book then the book's
index. -/
def EngineState.getOrder (e : EngineState) (orderId : OrderId) : Option Order :=
  match lookupAssoc e.orderToSymbol orderId with
  | none => none
  | some symbol =>
      match lookupAssoc e.books symbol with
      | none => none
      | some b => b.getOrder orderId

/-- Overwrite only the order-type tag; used to compare the behaviour of one
order under two type tags. -/
def Order.setType (o : Order) (t : OrderType) : Order := { o with otype := t }

/-- Forget the type tags of all resting orders (compare book states up to the
stored orders' `type_` field). -/
def PriceLevel.eraseTypes (lvl : PriceLevel) : PriceLevel :=
  { lvl with orders := lvl.orders.map (fun o => o.setType OrderType.LIMIT) }

def OrderBook.eraseTypes (b : OrderBook) : OrderBook :=
  { bids := b.bids.map (fun pl => (pl.1, pl.2.eraseTypes)),
    asks := b.asks.map (fun pl => (pl.1, pl.2.eraseTypes)) }

/-- Spec §3 invariant: after an operation, `bestBid < bestAsk` or a side is
empty. -/
def OrderBook.NoCross (b : OrderBook) : Prop :=
  b.bids = [] ∨ b.asks = [] ∨ b.getBestBid < b.getBestAsk

instance (b : OrderBook) : Decidable b.NoCross := by
  unfold OrderBook.NoCross; infer_instance

/-- Bids iterate strictly descending. -/
def sortedDesc (s : BookSide) : Prop := s.Pairwise (fun x y => y.1 < x.1)

/-- Asks iterate strictly ascending. -/
def sortedAsc (s : BookSide) : Prop := s.Pairwise (fun x y => x.1 < y.1)

/-- Structural well-formedness the C++ `std::map`s provide for free: the two
sides iterate in strictly sorted key order. -/
def OrderBook.WF (b : OrderBook) : Prop := sortedDesc b.bids ∧ sortedAsc b.asks

instance (b : OrderBook) : Decidable b.WF := by
  unfold OrderBook.WF sortedDesc sortedAsc; infer_instance

/-- Spec §8 invariant 2: no level has an empty queue. -/
def OrderBook.NoEmptyLevels (b : OrderBook) : Prop :=
  (∀ pl ∈ b.bids, pl.2.orders ≠ []) ∧ (∀ pl ∈ b.asks, pl.2.orders ≠ [])

instance (b : OrderBook) : Decidable b.NoEmptyLevels := by
  unfold OrderBook.NoEmptyLevels; infer_instance

/-- Invariant tying an incoming order's status to its fill progress: fresh
orders with positive quantity satisfy it and `Order::fill` preserves it. -/
def TakerOK (o : Order) : Prop :=
  0 < o.quantity ∧ o.remainingQuantity ≤ o.quantity ∧
  (if o.remainingQuantity = 0 then o.status = OrderStatus.FILLED
   else if o.remainingQuantity < o.quantity then o.status = OrderStatus.PARTIAL_FILL
   else o.status = OrderStatus.PENDING)

/- Concrete scenario states used by the per-claim theorems.  Prices are the
fixed-point representation (dollars times 10,000). -/

/-- The PartialFill unit test's inputs: SELL LIMIT 100 @ 150.0000 rests. -/
def c1book : OrderBook :=
  OrderBook.empty.addOrder (mkOrder 1 Side.SELL OrderType.LIMIT 1500000 100)

def c1res : MatchResult :=
  c1book.matchOrder (mkOrder 2 Side.BUY OrderType.LIMIT 1500000 50)

/-- One ask resting at 150.0000. -/
def c2book : OrderBook :=
  OrderBook.empty.addOrder (mkOrder 1 Side.SELL OrderType.LIMIT 1500000 50)

/-- BUY IOC, limit price 100.0000, against the ask at 150.0000. -/
def c2res : MatchResult :=
  c2book.matchOrder (mkOrder 2 Side.BUY OrderType.IOC 1000000 100)

/-- SELL LIMIT 100 @ 150.0000 rests, then BUY LIMIT 50 @ 150.0000 partially
consumes it (leaving the level's aggregate stale at 100). -/
def c3book : OrderBook :=
  ((OrderBook.empty.addOrder (mkOrder 1 Side.SELL OrderType.LIMIT 1500000 100)).matchOrder
    (mkOrder 2 Side.BUY OrderType.LIMIT 1500000 50)).book

/-- BUY FOK 100 @ 150.0000 with only 50 really available. -/
def c3res : MatchResult :=
  c3book.matchOrder (mkOrder 3 Side.BUY OrderType.FOK 1500000 100)

/-- Built through matchOrder only: BUY LIMIT 10 @ 100.0000 rests, SELL LIMIT
10 @ 110.0000 rests. -/
def c4book : OrderBook :=
  ((OrderBook.empty.matchOrder (mkOrder 1 Side.BUY OrderType.LIMIT 1000000 10)).book.matchOrder
    (mkOrder 2 Side.SELL OrderType.LIMIT 1100000 10)).book

/-- Modify the resting bid to 120.0000, crossing the 110.0000 ask. -/
def c4res : Bool × OrderBook := c4book.modifyOrder 1 1200000 10

/-- One ask resting at 150.0000. -/
def c5book : OrderBook :=
  OrderBook.empty.addOrder (mkOrder 1 Side.SELL OrderType.LIMIT 1500000 50)

/-- A zero-quantity BUY LIMIT matched on an empty book. -/
def c6res : MatchResult :=
  OrderBook.empty.matchOrder (mkOrder 1 Side.BUY OrderType.LIMIT 1000000 0)

/-- S3: three SELL LIMIT 150.0000 × 100 rest as A=1, B=2, C=3 in that order. -/
def c8book : OrderBook :=
  ((OrderBook.empty.addOrder
      (mkOrder 1 Side.SELL OrderType.LIMIT 1500000 100)).addOrder
      (mkOrder 2 Side.SELL OrderType.LIMIT 1500000 100)).addOrder
      (mkOrder 3 Side.SELL OrderType.LIMIT 1500000 100)

/-- BUY LIMIT 150.0000 × 150 against A, B, C. -/
def c8res : MatchResult :=
  c8book.matchOrder (mkOrder 4 Side.BUY OrderType.LIMIT 1500000 150)

/-- Engine run: submit SELL LIMIT 100 @ 150.0000 (gets id 1). -/
def c10e1 : EngineState :=
  (EngineState.empty.submitOrder "AAPL" Side.SELL OrderType.LIMIT 1500000 100).2

/-- Then submit BUY LIMIT 100 @ 150.0000 (id 2), fully filling order 1. -/
def c10e2 : EngineState :=
  (c10e1.submitOrder "AAPL" Side.BUY OrderType.LIMIT 1500000 100).2

/-! ## Theorems -/

/-- C1 (code bug): after the PartialFill inputs (SELL LIMIT 100 @ 150.0000
resting, BUY LIMIT 50 @ 150.0000 incoming) the ask level at 150.0000 reports
`totalQuantity = 100` while its FIFO queue holds a single order with
`remainingQuantity = 50`: the sweep never updates the level aggregate, so
`L.totalQuantity = Σ remainingQuantity` fails after `matchOrder` (the
repository's own test expects 50 here). -/
theorem C1_aggregate_breaks_on_partial_fill :
    c1res.book.getAskQuantityAtLevel 1500000 = 100 ∧
    (sideOrders c1res.book.asks).map Order.remainingQuantity = [50] := by
  decide

/-- C2 (counterexample): a BUY IOC with limit price 100.0000 executes a fill
against an ask level at 150.0000, a level at which the LIMIT price predicate
(level price ≤ order price) fails — the claim that IOC fills only while the
predicate holds is false. -/
theorem C2_counterexample :
    c2res.trades = [⟨2, 1, 1500000, 50⟩] ∧
    ¬((1500000 : Price) ≤ (mkOrder 2 Side.BUY OrderType.IOC 1000000 100).price) := by
  decide

/-- C3 (code bug): after an earlier partial fill leaves the 150.0000 ask
level's aggregate stale at 100 (50 really available), a BUY FOK 100 @
150.0000 passes `canFillEntireOrder`, executes one trade of 50, and ends
PARTIAL_FILL — not all-or-nothing: trades are returned, the order is neither
fully filled nor CANCELLED. -/
theorem C3_fok_partial_fill_bug :
    c3res.trades = [⟨3, 1, 1500000, 50⟩] ∧
    c3res.taker.remainingQuantity = 50 ∧
    c3res.taker.status = OrderStatus.PARTIAL_FILL := by
  decide

/-- C4 (counterexample): with a bid resting at 100.0000 and an ask at
110.0000 (both rested by `matchOrder`), `modifyOrder` of the bid to 120.0000
returns true and leaves both sides non-empty with `bestBid = 120.0000 >
bestAsk = 110.0000`: the no-cross property fails after `modifyOrder`. -/
theorem C4_counterexample :
    c4res.1 = true ∧ c4res.2.bids ≠ [] ∧ c4res.2.asks ≠ [] ∧
    ¬(c4res.2.getBestBid < c4res.2.getBestAsk) := by
  decide

/-- C5 (counterexample): a BUY STOP_LIMIT priced 100.0000 for 50 against an
ask resting at 150.0000 trades (the sweep's price predicate applies only to
type LIMIT), while the otherwise-identical LIMIT order rests without
trading: `matchOrder` on a stop order is not equivalent to `matchOrder` on
its LIMIT twin. -/
theorem C5_counterexample :
    (c5book.matchOrder (mkOrder 2 Side.BUY OrderType.STOP_LIMIT 1000000 50)).trades ≠
      (c5book.matchOrder (mkOrder 2 Side.BUY OrderType.LIMIT 1000000 50)).trades := by
  decide

/-- C6 (counterexample): a zero-quantity LIMIT order ends `matchOrder` with
`remainingQuantity = 0` but status PENDING, so `status = FILLED ⟺
remaining = 0` fails for quantity zero. -/
theorem C6_counterexample :
    c6res.taker.remainingQuantity = 0 ∧
    c6res.taker.status ≠ OrderStatus.FILLED := by
  decide

/-- C8: FIFO within a level — with SELL LIMIT 150.0000 × 100 resting as A=1,
B=2, C=3 in that order, a BUY LIMIT 150.0000 × 150 fills A for 100 then B
for 50; C remains untouched (identical to its freshly added state, with its
full 100), and B rests with 50 remaining. -/
theorem C8_fifo_within_level :
    c8res.trades = [⟨4, 1, 1500000, 100⟩, ⟨4, 2, 1500000, 50⟩] ∧
    (sideOrders c8res.book.asks).map (fun o => (o.orderId, o.remainingQuantity)) =
      [(2, 50), (3, 100)] ∧
    c8res.book.findOrder 3 = some (mkOrder 3 Side.SELL OrderType.LIMIT 1500000 100) := by
  decide

/-! ### Helper lemmas: `Order.fill` and `Order.setType` -/

@[simp] theorem fill_orderId (o : Order) (q : Quantity) :
    (o.fill q).orderId = o.orderId := rfl

@[simp] theorem fill_side (o : Order) (q : Quantity) :
    (o.fill q).side = o.side := rfl

@[simp] theorem fill_price (o : Order) (q : Quantity) :
    (o.fill q).price = o.price := rfl

@[simp] theorem fill_otype (o : Order) (q : Quantity) :
    (o.fill q).otype = o.otype := rfl

@[simp] theorem fill_quantity (o : Order) (q : Quantity) :
    (o.fill q).quantity = o.quantity := rfl

theorem fill_remaining (o : Order) (q : Quantity) :
    (o.fill q).remainingQuantity = o.remainingQuantity - min q o.remainingQuantity := rfl

@[simp] theorem setType_otype (o : Order) (t : OrderType) :
    (o.setType t).otype = t := rfl

@[simp] theorem setType_orderId (o : Order) (t : OrderType) :
    (o.setType t).orderId = o.orderId := rfl

@[simp] theorem setType_side (o : Order) (t : OrderType) :
    (o.setType t).side = o.side := rfl

@[simp] theorem setType_price (o : Order) (t : OrderType) :
    (o.setType t).price = o.price := rfl

@[simp] theorem setType_quantity (o : Order) (t : OrderType) :
    (o.setType t).quantity = o.quantity := rfl

@[simp] theorem setType_stopPrice (o : Order) (t : OrderType) :
    (o.setType t).stopPrice = o.stopPrice := rfl

@[simp] theorem setType_remaining (o : Order) (t : OrderType) :
    (o.setType t).remainingQuantity = o.remainingQuantity := rfl

@[simp] theorem setType_status (o : Order) (t : OrderType) :
    (o.setType t).status = o.status := rfl

theorem setType_setType (o : Order) (t t' : OrderType) :
    (o.setType t).setType t' = o.setType t' := rfl

theorem setType_self (o : Order) (t : OrderType) (h : o.otype = t) :
    o.setType t = o := by
  cases o
  simp only [Order.setType]
  simp_all

theorem fill_setType (o : Order) (t : OrderType) (q : Quantity) :
    (o.setType t).fill q = (o.fill q).setType t := rfl

theorem mkTrade_setType (taker maker : Order) (t : OrderType) (q : Quantity) :
    mkTrade (taker.setType t) maker q = mkTrade taker maker q := rfl

theorem sweepBreak_fill (a : Bool) (o : Order) (q : Quantity) (p : Price) :
    sweepBreak a (o.fill q) p = sweepBreak a o p := rfl

theorem sweepBreak_not_limit (a : Bool) (o : Order) (p : Price)
    (h : o.otype ≠ OrderType.LIMIT) : sweepBreak a o p = false := by
  cases a <;> simp [sweepBreak, h]

/-! ### Helper lemmas: the taker-status invariant -/

theorem takerOK_mkOrder (id : OrderId) (s : Side) (t : OrderType) (p : Price)
    (q : Quantity) (sp : Price) (h : 0 < q) : TakerOK (mkOrder id s t p q sp) := by
  have e1 : (mkOrder id s t p q sp).remainingQuantity = q := rfl
  have e2 : (mkOrder id s t p q sp).quantity = q := rfl
  have e3 : (mkOrder id s t p q sp).status = OrderStatus.PENDING := rfl
  have hne : ¬(q = 0) := by simp only [Quantity] at *; omega
  have hnl : ¬(q < q) := by simp only [Quantity] at *; omega
  unfold TakerOK
  rw [e1, e2, e3, if_neg hne, if_neg hnl]
  exact ⟨h, Nat.le_refl _, rfl⟩

theorem TakerOK.fill {o : Order} (h : TakerOK o) (q : Quantity) :
    TakerOK (o.fill q) := by
  obtain ⟨h1, h2, h3⟩ := h
  have hle : min q o.remainingQuantity ≤ o.remainingQuantity := min_le_right _ _
  refine ⟨h1, ?_, ?_⟩
  · rw [fill_remaining, fill_quantity]
    simp only [Quantity] at *
    omega
  · rw [fill_remaining, fill_quantity]
    by_cases hz : o.remainingQuantity - min q o.remainingQuantity = 0
    · rw [if_pos hz]
      simp [Order.fill, hz]
    · rw [if_neg hz]
      by_cases hlt : o.remainingQuantity - min q o.remainingQuantity < o.quantity
      · rw [if_pos hlt]
        simp [Order.fill, hz, hlt]
      · rw [if_neg hlt]
        have hnz : ¬(o.remainingQuantity = 0) := by
          simp only [Quantity] at *; omega
        have hnl : ¬(o.remainingQuantity < o.quantity) := by
          simp only [Quantity] at *; omega
        rw [if_neg hnz, if_neg hnl] at h3
        simp [Order.fill, hz, hlt, h3]

/-! ### Helper lemmas: the sweep -/

@[simp] theorem sideOrders_nil : sideOrders [] = [] := rfl

@[simp] theorem sideOrders_cons (pl : Price × PriceLevel) (s : BookSide) :
    sideOrders (pl :: s) = pl.2.orders ++ sideOrders s := rfl

theorem executeFills_rem_zero (taker : Order) (ms : List Order)
    (h : taker.remainingQuantity = 0) : executeFills taker ms = (taker, [], ms) := by
  cases ms with
  | nil => simp [executeFills]
  | cons m ms => simp [executeFills, h]

theorem executeFills_fields (taker : Order) (ms : List Order) :
    (executeFills taker ms).1.orderId = taker.orderId ∧
    (executeFills taker ms).1.side = taker.side ∧
    (executeFills taker ms).1.price = taker.price ∧
    (executeFills taker ms).1.otype = taker.otype ∧
    (executeFills taker ms).1.quantity = taker.quantity := by
  induction ms generalizing taker with
  | nil => simp [executeFills]
  | cons m ms ih =>
      by_cases h0 : taker.remainingQuantity = 0
      · simp [executeFills, h0]
      · by_cases h2 : (m.fill (min taker.remainingQuantity m.remainingQuantity)).isFilled
        · simpa [executeFills, h0, h2] using ih (taker.fill _)
        · simpa [executeFills, h0, h2] using ih (taker.fill _)

theorem executeFills_orderId (taker : Order) (ms : List Order) :
    (executeFills taker ms).1.orderId = taker.orderId :=
  (executeFills_fields taker ms).1

theorem executeFills_side (taker : Order) (ms : List Order) :
    (executeFills taker ms).1.side = taker.side :=
  (executeFills_fields taker ms).2.1

theorem executeFills_price (taker : Order) (ms : List Order) :
    (executeFills taker ms).1.price = taker.price :=
  (executeFills_fields taker ms).2.2.1

theorem executeFills_otype (taker : Order) (ms : List Order) :
    (executeFills taker ms).1.otype = taker.otype :=
  (executeFills_fields taker ms).2.2.2.1

theorem sweepBreak_executeFills (a : Bool) (taker : Order) (ms : List Order)
    (p : Price) : sweepBreak a (executeFills taker ms).1 p = sweepBreak a taker p := by
  cases a <;>
    simp [sweepBreak, executeFills_otype, executeFills_side, executeFills_price]

theorem executeFills_queue_rem (taker : Order) (ms : List Order)
    (h : (executeFills taker ms).2.2 ≠ []) :
    (executeFills taker ms).1.remainingQuantity = 0 := by
  induction ms generalizing taker with
  | nil => simp [executeFills] at h
  | cons m ms ih =>
      by_cases h0 : taker.remainingQuantity = 0
      · simp [executeFills, h0]
      · by_cases h2 : (m.fill (min taker.remainingQuantity m.remainingQuantity)).isFilled
        · simp only [executeFills, if_neg h0, if_pos h2] at h ⊢
          exact ih _ h
        · have hterm : (taker.fill (min taker.remainingQuantity m.remainingQuantity)).remainingQuantity = 0 := by
            have hm := h2
            unfold Order.isFilled at hm
            rw [fill_remaining] at hm ⊢
            have hmin1 : min (min taker.remainingQuantity m.remainingQuantity) m.remainingQuantity
                = min taker.remainingQuantity m.remainingQuantity := by
              rw [min_assoc, min_self]
            rw [hmin1] at hm
            simp only [Quantity] at *
            omega
          simp only [executeFills, h0, if_neg h0, if_neg h2]
          rw [executeFills_rem_zero _ _ hterm]
          exact hterm

theorem executeFills_queue_mem (taker : Order) (ms : List Order) :
    ∀ m' ∈ (executeFills taker ms).2.2, ∃ m ∈ ms,
      m'.orderId = m.orderId ∧ m'.price = m.price := by
  induction ms generalizing taker with
  | nil => simp [executeFills]
  | cons m ms ih =>
      by_cases h0 : taker.remainingQuantity = 0
      · simp only [executeFills, if_pos h0]
        intro m' hm'
        exact ⟨m', hm', rfl, rfl⟩
      · by_cases h2 : (m.fill (min taker.remainingQuantity m.remainingQuantity)).isFilled
        · simp only [executeFills, if_neg h0, if_pos h2]
          intro m' hm'
          obtain ⟨x, hx, he⟩ := ih _ m' hm'
          exact ⟨x, List.mem_cons_of_mem _ hx, he⟩
        · simp only [executeFills, if_neg h0, if_neg h2]
          intro m' hm'
          rcases List.mem_cons.mp hm' with h | h
          · exact ⟨m, List.mem_cons_self _ _, by simp [h]⟩
          · obtain ⟨x, hx, he⟩ := ih _ m' h
            exact ⟨x, List.mem_cons_of_mem _ hx, he⟩

theorem executeFills_trades (taker : Order) (ms : List Order) :
    ∀ t ∈ (executeFills taker ms).2.1, ∃ m ∈ ms, t.price = m.price ∧
      (taker.side = Side.BUY →
        t.buyOrderId = taker.orderId ∧ t.sellOrderId = m.orderId) ∧
      (taker.side = Side.SELL →
        t.sellOrderId = taker.orderId ∧ t.buyOrderId = m.orderId) := by
  induction ms generalizing taker with
  | nil => simp [executeFills]
  | cons m ms ih =>
      by_cases h0 : taker.remainingQuantity = 0
      · simp [executeFills, h0]
      · have hstep : ∀ t ∈ (mkTrade taker m (min taker.remainingQuantity m.remainingQuantity) ::
            (executeFills (taker.fill (min taker.remainingQuantity m.remainingQuantity)) ms).2.1),
            ∃ x ∈ m :: ms, t.price = x.price ∧
              (taker.side = Side.BUY → t.buyOrderId = taker.orderId ∧ t.sellOrderId = x.orderId) ∧
              (taker.side = Side.SELL → t.sellOrderId = taker.orderId ∧ t.buyOrderId = x.orderId) := by
          intro t ht
          rcases List.mem_cons.mp ht with h | h
          · refine ⟨m, List.mem_cons_self _ _, ?_⟩
            subst h
            refine ⟨rfl, ?_, ?_⟩
            · intro hside
              constructor
              · simp [mkTrade, hside]
              · have : taker.side ≠ Side.SELL := by rw [hside]; intro hc; cases hc
                simp [mkTrade, this]
            · intro hside
              constructor
              · simp [mkTrade, hside]
              · have : taker.side ≠ Side.BUY := by rw [hside]; intro hc; cases hc
                simp [mkTrade, this]
          · obtain ⟨x, hx, h1, h2, h3⟩ := ih (taker.fill _) t h
            refine ⟨x, List.mem_cons_of_mem _ hx, h1, ?_, ?_⟩
            · intro hside
              have := h2 (by rw [fill_side]; exact hside)
              simpa [fill_orderId] using this
            · intro hside
              have := h3 (by rw [fill_side]; exact hside)
              simpa [fill_orderId] using this
        by_cases h2 : (m.fill (min taker.remainingQuantity m.remainingQuantity)).isFilled
        · simp only [executeFills, if_neg h0, if_pos h2]
          exact hstep
        · simp only [executeFills, if_neg h0, if_neg h2]
          exact hstep

theorem executeMatches_rem_zero (a : Bool) (taker : Order) (ls : BookSide)
    (h : taker.remainingQuantity = 0) : executeMatches a taker ls = (taker, [], ls) := by
  cases ls with
  | nil => simp [executeMatches]
  | cons pl ls => obtain ⟨p, lvl⟩ := pl; simp [executeMatches, h]

/-- One unfolding step of the level loop when neither stop condition fires. -/
theorem executeMatches_cons (a : Bool) (taker : Order) (p : Price)
    (lvl : PriceLevel) (ls : BookSide) (h0 : ¬taker.remainingQuantity = 0)
    (hb : sweepBreak a taker p = false) :
    executeMatches a taker ((p, lvl) :: ls) =
      ((executeMatches a (executeFills taker lvl.orders).1 ls).1,
       (executeFills taker lvl.orders).2.1 ++
         (executeMatches a (executeFills taker lvl.orders).1 ls).2.1,
       if (executeFills taker lvl.orders).2.2 = [] then
         (executeMatches a (executeFills taker lvl.orders).1 ls).2.2
       else
         (p, { totalQuantity := lvl.totalQuantity,
               orders := (executeFills taker lvl.orders).2.2 }) ::
           (executeMatches a (executeFills taker lvl.orders).1 ls).2.2) := by
  by_cases hq : (executeFills taker lvl.orders).2.2 = [] <;>
    simp [executeMatches, h0, hb, hq]

theorem executeMatches_fields (a : Bool) (taker : Order) (ls : BookSide) :
    (executeMatches a taker ls).1.orderId = taker.orderId ∧
    (executeMatches a taker ls).1.side = taker.side ∧
    (executeMatches a taker ls).1.price = taker.price ∧
    (executeMatches a taker ls).1.otype = taker.otype ∧
    (executeMatches a taker ls).1.quantity = taker.quantity := by
  induction ls generalizing taker with
  | nil => simp [executeMatches]
  | cons pl ls ih =>
      obtain ⟨p, lvl⟩ := pl
      by_cases h0 : taker.remainingQuantity = 0
      · simp [executeMatches, h0]
      · by_cases hb : sweepBreak a taker p
        · simp [executeMatches, h0, hb]
        · rw [executeMatches_cons a taker p lvl ls h0 (by simpa using hb)]
          have hf := executeFills_fields taker lvl.orders
          have hm := ih (executeFills taker lvl.orders).1
          exact ⟨hm.1.trans hf.1, hm.2.1.trans hf.2.1, hm.2.2.1.trans hf.2.2.1,
            hm.2.2.2.1.trans hf.2.2.2.1, hm.2.2.2.2.trans hf.2.2.2.2⟩

theorem executeMatches_orderId (a : Bool) (taker : Order) (ls : BookSide) :
    (executeMatches a taker ls).1.orderId = taker.orderId :=
  (executeMatches_fields a taker ls).1

theorem executeMatches_side (a : Bool) (taker : Order) (ls : BookSide) :
    (executeMatches a taker ls).1.side = taker.side :=
  (executeMatches_fields a taker ls).2.1

theorem executeMatches_price (a : Bool) (taker : Order) (ls : BookSide) :
    (executeMatches a taker ls).1.price = taker.price :=
  (executeMatches_fields a taker ls).2.2.1

theorem executeMatches_otype (a : Bool) (taker : Order) (ls : BookSide) :
    (executeMatches a taker ls).1.otype = taker.otype :=
  (executeMatches_fields a taker ls).2.2.2.1

theorem executeMatches_keys_sublist (a : Bool) (taker : Order) (ls : BookSide) :
    List.Sublist (((executeMatches a taker ls).2.2).map Prod.fst) (ls.map Prod.fst) := by
  induction ls generalizing taker with
  | nil => simp [executeMatches]
  | cons pl ls ih =>
      obtain ⟨p, lvl⟩ := pl
      by_cases h0 : taker.remainingQuantity = 0
      · simp [executeMatches_rem_zero a taker _ h0]
      · by_cases hb : sweepBreak a taker p
        · simp [executeMatches, h0, hb]
        · rw [executeMatches_cons a taker p lvl ls h0 (by simpa using hb)]
          by_cases hq : (executeFills taker lvl.orders).2.2 = []
          · simp only [hq, if_pos rfl]
            exact (ih _).trans (List.sublist_cons_self _ _)
          · simp only [hq, if_neg hq, List.map_cons]
            exact List.Sublist.cons₂ _ (ih _)

theorem executeMatches_sideOrders_mem (a : Bool) (taker : Order) (ls : BookSide) :
    ∀ o' ∈ sideOrders (executeMatches a taker ls).2.2, ∃ m ∈ sideOrders ls,
      o'.orderId = m.orderId ∧ o'.price = m.price := by
  induction ls generalizing taker with
  | nil => simp [executeMatches]
  | cons pl ls ih =>
      obtain ⟨p, lvl⟩ := pl
      by_cases h0 : taker.remainingQuantity = 0
      · rw [executeMatches_rem_zero a taker _ h0]
        intro o' ho'
        exact ⟨o', ho', rfl, rfl⟩
      · by_cases hb : sweepBreak a taker p
        · simp only [executeMatches, if_neg h0, if_pos hb]
          intro o' ho'
          exact ⟨o', ho', rfl, rfl⟩
        · rw [executeMatches_cons a taker p lvl ls h0 (by simpa using hb)]
          by_cases hq : (executeFills taker lvl.orders).2.2 = []
          · simp only [hq, if_pos rfl]
            intro o' ho'
            obtain ⟨m, hm, he⟩ := ih _ o' ho'
            exact ⟨m, by simp [List.mem_append]; exact Or.inr hm, he⟩
          · simp only [hq, if_neg hq, sideOrders_cons]
            intro o' ho'
            rcases List.mem_append.mp ho' with hl | hr
            · obtain ⟨m, hm, he⟩ := executeFills_queue_mem taker lvl.orders o' hl
              exact ⟨m, by simp [List.mem_append]; exact Or.inl hm, he⟩
            · obtain ⟨m, hm, he⟩ := ih _ o' hr
              exact ⟨m, by simp [List.mem_append]; exact Or.inr hm, he⟩

theorem executeMatches_trades (a : Bool) (taker : Order) (ls : BookSide) :
    ∀ t ∈ (executeMatches a taker ls).2.1, ∃ m ∈ sideOrders ls, t.price = m.price ∧
      (taker.side = Side.BUY →
        t.buyOrderId = taker.orderId ∧ t.sellOrderId = m.orderId) ∧
      (taker.side = Side.SELL →
        t.sellOrderId = taker.orderId ∧ t.buyOrderId = m.orderId) := by
  induction ls generalizing taker with
  | nil => simp [executeMatches]
  | cons pl ls ih =>
      obtain ⟨p, lvl⟩ := pl
      by_cases h0 : taker.remainingQuantity = 0
      · simp [executeMatches_rem_zero a taker _ h0]
      · by_cases hb : sweepBreak a taker p
        · simp [executeMatches, h0, hb]
        · rw [executeMatches_cons a taker p lvl ls h0 (by simpa using hb)]
          intro t ht
          rcases List.mem_append.mp ht with hl | hr
          · obtain ⟨m, hm, h1, h2, h3⟩ := executeFills_trades taker lvl.orders t hl
            exact ⟨m, by simp [List.mem_append]; exact Or.inl hm, h1, h2, h3⟩
          · obtain ⟨m, hm, h1, h2, h3⟩ := ih _ t hr
            refine ⟨m, by simp [List.mem_append]; exact Or.inr hm, h1, ?_, ?_⟩
            · intro hside
              have := h2 (by rw [executeFills_side]; exact hside)
              rwa [executeFills_orderId] at this
            · intro hside
              have := h3 (by rw [executeFills_side]; exact hside)
              rwa [executeFills_orderId] at this

theorem executeMatches_all_consumed (a : Bool) (taker : Order) (ls : BookSide)
    (hb : ∀ pl ∈ ls, sweepBreak a taker pl.1 = false)
    (hrem : ¬(executeMatches a taker ls).1.remainingQuantity = 0) :
    (executeMatches a taker ls).2.2 = [] := by
  induction ls generalizing taker with
  | nil => simp [executeMatches]
  | cons pl ls ih =>
      obtain ⟨p, lvl⟩ := pl
      by_cases h0 : taker.remainingQuantity = 0
      · exfalso
        rw [executeMatches_rem_zero a taker _ h0] at hrem
        exact hrem h0
      · have hbp : sweepBreak a taker p = false := hb (p, lvl) (List.mem_cons_self _ _)
        rw [executeMatches_cons a taker p lvl ls h0 hbp] at hrem ⊢
        by_cases hq : (executeFills taker lvl.orders).2.2 = []
        · simp only [hq, if_pos rfl]
          refine ih _ ?_ hrem
          intro pl' hpl'
          rw [sweepBreak_executeFills]
          exact hb pl' (List.mem_cons_of_mem _ hpl')
        · exfalso
          have hz := executeFills_queue_rem taker lvl.orders hq
          rw [executeMatches_rem_zero a _ ls hz] at hrem
          exact hrem hz

theorem executeMatches_rest_bound_asks (taker : Order) (ls : BookSide)
    (hsort : sortedAsc ls) (ht : taker.otype = OrderType.LIMIT)
    (hs : taker.side = Side.BUY)
    (hrem : ¬(executeMatches true taker ls).1.remainingQuantity = 0) :
    ∀ pl ∈ (executeMatches true taker ls).2.2, taker.price < pl.1 := by
  induction ls generalizing taker with
  | nil => simp [executeMatches]
  | cons pl0 ls ih =>
      obtain ⟨p, lvl⟩ := pl0
      by_cases h0 : taker.remainingQuantity = 0
      · exfalso
        rw [executeMatches_rem_zero true taker _ h0] at hrem
        exact hrem h0
      · by_cases hbp : sweepBreak true taker p = true
        · have hpp : taker.price < p := by
            simp [sweepBreak, ht, hs] at hbp
            exact hbp
          simp only [executeMatches, if_neg h0, if_pos hbp]
          intro pl hpl
          rcases List.mem_cons.mp hpl with h | h
          · rw [h]; exact hpp
          · have := (List.pairwise_cons.mp hsort).1 pl h
            exact hpp.trans this
        · have hbp' : sweepBreak true taker p = false := by
            simpa using hbp
          rw [executeMatches_cons true taker p lvl ls h0 hbp'] at hrem ⊢
          by_cases hq : (executeFills taker lvl.orders).2.2 = []
          · simp only [hq, if_pos rfl]
            intro pl hpl
            have := ih (executeFills taker lvl.orders).1
              (List.pairwise_cons.mp hsort).2
              ((executeFills_otype taker lvl.orders).trans ht)
              ((executeFills_side taker lvl.orders).trans hs) hrem pl hpl
            rwa [executeFills_price] at this
          · exfalso
            have hz := executeFills_queue_rem taker lvl.orders hq
            rw [executeMatches_rem_zero true _ ls hz] at hrem
            exact hrem hz

theorem executeMatches_rest_bound_bids (taker : Order) (ls : BookSide)
    (hsort : sortedDesc ls) (ht : taker.otype = OrderType.LIMIT)
    (hs : taker.side = Side.SELL)
    (hrem : ¬(executeMatches false taker ls).1.remainingQuantity = 0) :
    ∀ pl ∈ (executeMatches false taker ls).2.2, pl.1 < taker.price := by
  induction ls generalizing taker with
  | nil => simp [executeMatches]
  | cons pl0 ls ih =>
      obtain ⟨p, lvl⟩ := pl0
      by_cases h0 : taker.remainingQuantity = 0
      · exfalso
        rw [executeMatches_rem_zero false taker _ h0] at hrem
        exact hrem h0
      · by_cases hbp : sweepBreak false taker p = true
        · have hpp : p < taker.price := by
            simp [sweepBreak, ht, hs] at hbp
            exact hbp
          simp only [executeMatches, if_neg h0, if_pos hbp]
          intro pl hpl
          rcases List.mem_cons.mp hpl with h | h
          · rw [h]; exact hpp
          · have := (List.pairwise_cons.mp hsort).1 pl h
            exact this.trans hpp
        · have hbp' : sweepBreak false taker p = false := by
            simpa using hbp
          rw [executeMatches_cons false taker p lvl ls h0 hbp'] at hrem ⊢
          by_cases hq : (executeFills taker lvl.orders).2.2 = []
          · simp only [hq, if_pos rfl]
            intro pl hpl
            have := ih (executeFills taker lvl.orders).1
              (List.pairwise_cons.mp hsort).2
              ((executeFills_otype taker lvl.orders).trans ht)
              ((executeFills_side taker lvl.orders).trans hs) hrem pl hpl
            rwa [executeFills_price] at this
          · exfalso
            have hz := executeFills_queue_rem taker lvl.orders hq
            rw [executeMatches_rem_zero false _ ls hz] at hrem
            exact hrem hz

/-! ### Helper lemmas: the no-cross invariant -/

theorem sortedAsc_head_le (p : Price) (l : PriceLevel) (s : BookSide)
    (hs : sortedAsc ((p, l) :: s)) : ∀ pl ∈ (p, l) :: s, p ≤ pl.1 := by
  intro pl hpl
  rcases List.mem_cons.mp hpl with h | h
  · subst h; exact le_refl p
  · exact le_of_lt ((List.pairwise_cons.mp hs).1 pl h)

theorem sortedDesc_head_ge (p : Price) (l : PriceLevel) (s : BookSide)
    (hs : sortedDesc ((p, l) :: s)) : ∀ pl ∈ (p, l) :: s, pl.1 ≤ p := by
  intro pl hpl
  rcases List.mem_cons.mp hpl with h | h
  · subst h; exact le_refl p
  · exact le_of_lt ((List.pairwise_cons.mp hs).1 pl h)

theorem sideRemoveOrder_keys_sublist (p : Price) (id : OrderId) (s : BookSide) :
    List.Sublist ((sideRemoveOrder p id s).map Prod.fst) (s.map Prod.fst) := by
  induction s with
  | nil => simp [sideRemoveOrder]
  | cons ql rest ih =>
      obtain ⟨q, l⟩ := ql
      by_cases hq : q = p
      · by_cases he : (l.removeOrder id).isEmpty
        · simp only [sideRemoveOrder, if_pos hq, if_pos he, List.map_cons]
          exact (List.Sublist.refl _).cons _
        · simp only [sideRemoveOrder, if_pos hq, if_neg he, List.map_cons]
          exact List.Sublist.cons₂ _ (List.Sublist.refl _)
      · simp only [sideRemoveOrder, if_neg hq, List.map_cons]
        exact List.Sublist.cons₂ _ ih


theorem noCross_set_asks (b : OrderBook) (asks' : BookSide) (hWF : b.WF)
    (hNC : b.NoCross)
    (hsub : List.Sublist (asks'.map Prod.fst) (b.asks.map Prod.fst)) :
    OrderBook.NoCross { bids := b.bids, asks := asks' } := by
  by_cases hb : b.bids = []
  · exact Or.inl hb
  by_cases ha : asks' = []
  · exact Or.inr (Or.inl ha)
  right; right
  cases hca : asks' with
  | nil => exact absurd hca ha
  | cons hd tl =>
      obtain ⟨pa, la⟩ := hd
      have hmem : pa ∈ b.asks.map Prod.fst := by
        refine hsub.subset ?_
        rw [hca]; simp
      cases hba : b.asks with
      | nil => rw [hba] at hmem; simp at hmem
      | cons a0 s0 =>
          obtain ⟨pa0, la0⟩ := a0
          have h3 : b.getBestBid < b.getBestAsk := by
            rcases hNC with h | h | h
            · exact absurd h hb
            · rw [h] at hba; cases hba
            · exact h
          have hle : pa0 ≤ pa := by
            rw [hba] at hmem
            obtain ⟨pl, hpl, he⟩ := List.mem_map.mp hmem
            have hsort : sortedAsc ((pa0, la0) :: s0) := by
              have h2 := hWF.2; rwa [hba] at h2
            have h4 := sortedAsc_head_le pa0 la0 s0 hsort pl hpl
            rwa [he] at h4
          have hask : b.getBestAsk = pa0 := by
            unfold OrderBook.getBestAsk; rw [hba]
          have hbid : OrderBook.getBestBid { bids := b.bids, asks := asks' } =
              b.getBestBid := rfl
          have hask' : OrderBook.getBestAsk { bids := b.bids, asks := asks' } = pa := by
            unfold OrderBook.getBestAsk
            simp only [hca]
          rw [← hca, hbid, hask']
          calc b.getBestBid < b.getBestAsk := h3
            _ = pa0 := hask
            _ ≤ pa := hle

theorem noCross_set_bids (b : OrderBook) (bids' : BookSide) (hWF : b.WF)
    (hNC : b.NoCross)
    (hsub : List.Sublist (bids'.map Prod.fst) (b.bids.map Prod.fst)) :
    OrderBook.NoCross { bids := bids', asks := b.asks } := by
  by_cases hb : bids' = []
  · exact Or.inl hb
  by_cases ha : b.asks = []
  · exact Or.inr (Or.inl ha)
  right; right
  cases hcb : bids' with
  | nil => exact absurd hcb hb
  | cons hd tl =>
      obtain ⟨pb, lb⟩ := hd
      have hmem : pb ∈ b.bids.map Prod.fst := by
        refine hsub.subset ?_
        rw [hcb]; simp
      cases hbb : b.bids with
      | nil => rw [hbb] at hmem; simp at hmem
      | cons b0 s0 =>
          obtain ⟨pb0, lb0⟩ := b0
          have h3 : b.getBestBid < b.getBestAsk := by
            rcases hNC with h | h | h
            · rw [h] at hbb; cases hbb
            · exact absurd h ha
            · exact h
          have hle : pb ≤ pb0 := by
            rw [hbb] at hmem
            obtain ⟨pl, hpl, he⟩ := List.mem_map.mp hmem
            have hsort : sortedDesc ((pb0, lb0) :: s0) := by
              have h2 := hWF.1; rwa [hbb] at h2
            have h4 := sortedDesc_head_ge pb0 lb0 s0 hsort pl hpl
            rwa [he] at h4
          have hbid0 : b.getBestBid = pb0 := by
            unfold OrderBook.getBestBid; rw [hbb]
          have hask : OrderBook.getBestAsk { bids := bids', asks := b.asks } =
              b.getBestAsk := rfl
          have hbid' : OrderBook.getBestBid { bids := bids', asks := b.asks } = pb := by
            unfold OrderBook.getBestBid
            simp only [hcb]
          rw [← hcb, hask, hbid']
          calc pb ≤ pb0 := hle
            _ = b.getBestBid := hbid0.symm
            _ < b.getBestAsk := h3

theorem noCross_rest_buy (b : OrderBook) (asks' : BookSide) (o1 : Order)
    (hWF : b.WF) (hNC : b.NoCross)
    (hsub : List.Sublist (asks'.map Prod.fst) (b.asks.map Prod.fst))
    (hbound : ∀ pl ∈ asks', o1.price < pl.1) :
    OrderBook.NoCross
      { bids := sideInsert bidBefore o1.price o1 b.bids, asks := asks' } := by
  by_cases ha : asks' = []
  · exact Or.inr (Or.inl ha)
  right; right
  cases hca : asks' with
  | nil => exact absurd hca ha
  | cons hd tl =>
      obtain ⟨pa, la⟩ := hd
      rw [← hca]
      have hop : o1.price < pa := by
        have h5 := hbound (pa, la) (by rw [hca]; exact List.mem_cons_self _ _)
        simpa using h5
      have hask' : OrderBook.getBestAsk
          { bids := sideInsert bidBefore o1.price o1 b.bids, asks := asks' } = pa := by
        unfold OrderBook.getBestAsk
        simp only [hca]
      rw [hask']
      cases hbb : b.bids with
      | nil =>
          simp only [sideInsert, OrderBook.getBestBid]
          exact hop
      | cons b0 s0 =>
          obtain ⟨pb, lb⟩ := b0
          by_cases he : o1.price = pb
          · simp only [sideInsert, if_pos he, OrderBook.getBestBid]
            rw [← he]
            exact hop
          · by_cases hlt : bidBefore o1.price pb = true
            · simp [sideInsert, he, hlt, OrderBook.getBestBid]
              exact hop
            · have hlt' : bidBefore o1.price pb = false := by
                simpa using hlt
              simp [sideInsert, he, hlt', OrderBook.getBestBid]
              have hmem : pa ∈ b.asks.map Prod.fst := by
                refine hsub.subset ?_
                rw [hca]; simp
              cases hba : b.asks with
              | nil => rw [hba] at hmem; simp at hmem
              | cons a0 t0 =>
                  obtain ⟨pa0, la0⟩ := a0
                  have h3 : b.getBestBid < b.getBestAsk := by
                    rcases hNC with h | h | h
                    · rw [h] at hbb; cases hbb
                    · rw [h] at hba; cases hba
                    · exact h
                  have hb0 : b.getBestBid = pb := by
                    unfold OrderBook.getBestBid; rw [hbb]
                  have ha0 : b.getBestAsk = pa0 := by
                    unfold OrderBook.getBestAsk; rw [hba]
                  have hle : pa0 ≤ pa := by
                    rw [hba] at hmem
                    obtain ⟨pl, hpl, he2⟩ := List.mem_map.mp hmem
                    have hsort : sortedAsc ((pa0, la0) :: t0) := by
                      have h2 := hWF.2; rwa [hba] at h2
                    have h4 := sortedAsc_head_le pa0 la0 t0 hsort pl hpl
                    rwa [he2] at h4
                  calc pb = b.getBestBid := hb0.symm
                    _ < b.getBestAsk := h3
                    _ = pa0 := ha0
                    _ ≤ pa := hle

theorem noCross_rest_sell (b : OrderBook) (bids' : BookSide) (o1 : Order)
    (hWF : b.WF) (hNC : b.NoCross)
    (hsub : List.Sublist (bids'.map Prod.fst) (b.bids.map Prod.fst))
    (hbound : ∀ pl ∈ bids', pl.1 < o1.price) :
    OrderBook.NoCross
      { bids := bids', asks := sideInsert askBefore o1.price o1 b.asks } := by
  by_cases hb : bids' = []
  · exact Or.inl hb
  right; right
  cases hcb : bids' with
  | nil => exact absurd hcb hb
  | cons hd tl =>
      obtain ⟨pb, lb⟩ := hd
      rw [← hcb]
      have hop : pb < o1.price := by
        have h5 := hbound (pb, lb) (by rw [hcb]; exact List.mem_cons_self _ _)
        simpa using h5
      have hbid' : OrderBook.getBestBid
          { bids := bids', asks := sideInsert askBefore o1.price o1 b.asks } = pb := by
        unfold OrderBook.getBestBid
        simp only [hcb]
      rw [hbid']
      cases hba : b.asks with
      | nil =>
          simp only [sideInsert, OrderBook.getBestAsk]
          exact hop
      | cons a0 t0 =>
          obtain ⟨pa, la⟩ := a0
          by_cases he : o1.price = pa
          · simp only [sideInsert, if_pos he, OrderBook.getBestAsk]
            rw [← he]
            exact hop
          · by_cases hlt : askBefore o1.price pa = true
            · simp [sideInsert, he, hlt, OrderBook.getBestAsk]
              exact hop
            · have hlt' : askBefore o1.price pa = false := by
                simpa using hlt
              simp [sideInsert, he, hlt', OrderBook.getBestAsk]
              have hmem : pb ∈ b.bids.map Prod.fst := by
                refine hsub.subset ?_
                rw [hcb]; simp
              cases hbb : b.bids with
              | nil => rw [hbb] at hmem; simp at hmem
              | cons b0 s0 =>
                  obtain ⟨pb0, lb0⟩ := b0
                  have h3 : b.getBestBid < b.getBestAsk := by
                    rcases hNC with h | h | h
                    · rw [h] at hbb; cases hbb
                    · rw [h] at hba; cases hba
                    · exact h
                  have hb0 : b.getBestBid = pb0 := by
                    unfold OrderBook.getBestBid; rw [hbb]
                  have ha0 : b.getBestAsk = pa := by
                    unfold OrderBook.getBestAsk; rw [hba]
                  have hle : pb ≤ pb0 := by
                    rw [hbb] at hmem
                    obtain ⟨pl, hpl, he2⟩ := List.mem_map.mp hmem
                    have hsort : sortedDesc ((pb0, lb0) :: s0) := by
                      have h2 := hWF.1; rwa [hbb] at h2
                    have h4 := sortedDesc_head_ge pb0 lb0 s0 hsort pl hpl
                    rwa [he2] at h4
                  calc pb ≤ pb0 := hle
                    _ = b.getBestBid := hb0.symm
                    _ < b.getBestAsk := h3
                    _ = pa := ha0


theorem matchMarketOrder_noCross (b : OrderBook) (o : Order) (hWF : b.WF)
    (hNC : b.NoCross) : (b.matchMarketOrder o).book.NoCross := by
  unfold OrderBook.matchMarketOrder
  by_cases hs : o.side = Side.BUY
  · simp [hs]
    exact noCross_set_asks b _ hWF hNC (executeMatches_keys_sublist true o b.asks)
  · simp [hs]
    exact noCross_set_bids b _ hWF hNC (executeMatches_keys_sublist false o b.bids)

theorem matchIOCOrder_noCross (b : OrderBook) (o : Order) (hWF : b.WF)
    (hNC : b.NoCross) : (b.matchIOCOrder o).book.NoCross := by
  unfold OrderBook.matchIOCOrder
  by_cases hs : o.side = Side.BUY
  · simp [hs]
    exact noCross_set_asks b _ hWF hNC (executeMatches_keys_sublist true o b.asks)
  · simp [hs]
    exact noCross_set_bids b _ hWF hNC (executeMatches_keys_sublist false o b.bids)

theorem matchFOKOrder_noCross (b : OrderBook) (o : Order) (hWF : b.WF)
    (hNC : b.NoCross) : (b.matchFOKOrder o).book.NoCross := by
  unfold OrderBook.matchFOKOrder
  by_cases hcf : b.canFillEntireOrder o = true
  · by_cases hs : o.side = Side.BUY
    · simp [hcf, hs]
      exact noCross_set_asks b _ hWF hNC (executeMatches_keys_sublist true o b.asks)
    · simp [hcf, hs]
      exact noCross_set_bids b _ hWF hNC (executeMatches_keys_sublist false o b.bids)
  · have hcf' : b.canFillEntireOrder o = false := by simpa using hcf
    simp [hcf']
    exact hNC

theorem matchLimitOrder_noCross (b : OrderBook) (o : Order) (hWF : b.WF)
    (hNC : b.NoCross) : (b.matchLimitOrder o).book.NoCross := by
  unfold OrderBook.matchLimitOrder
  by_cases hs : o.side = Side.BUY
  · by_cases hr : 0 < (executeMatches true o b.asks).1.remainingQuantity ∧
        (executeMatches true o b.asks).1.isActive
    · have hrem : ¬(executeMatches true o b.asks).1.remainingQuantity = 0 := by
        intro hz
        rw [hz] at hr
        exact lt_irrefl 0 hr.1
      by_cases ht : o.otype = OrderType.LIMIT
      · simp [hs, hr]
        apply noCross_rest_buy b _ _ hWF hNC (executeMatches_keys_sublist true o b.asks)
        intro pl hpl
        rw [executeMatches_price]
        exact executeMatches_rest_bound_asks o b.asks hWF.2 ht hs hrem pl hpl
      · have hcons : (executeMatches true o b.asks).2.2 = [] :=
          executeMatches_all_consumed true o b.asks
            (fun pl _ => sweepBreak_not_limit true o pl.1 ht) hrem
        simp [hs, hr, hcons]
        exact Or.inr (Or.inl rfl)
    · simp [hs, hr]
      exact noCross_set_asks b _ hWF hNC (executeMatches_keys_sublist true o b.asks)
  · by_cases hr : 0 < (executeMatches false o b.bids).1.remainingQuantity ∧
        (executeMatches false o b.bids).1.isActive
    · have hrem : ¬(executeMatches false o b.bids).1.remainingQuantity = 0 := by
        intro hz
        rw [hz] at hr
        exact lt_irrefl 0 hr.1
      have hside : o.side = Side.SELL := by
        cases hside2 : o.side
        · exact absurd hside2 hs
        · rfl
      by_cases ht : o.otype = OrderType.LIMIT
      · simp [hs, hr]
        apply noCross_rest_sell b _ _ hWF hNC (executeMatches_keys_sublist false o b.bids)
        intro pl hpl
        rw [executeMatches_price]
        exact executeMatches_rest_bound_bids o b.bids hWF.1 ht hside hrem pl hpl
      · have hcons : (executeMatches false o b.bids).2.2 = [] :=
          executeMatches_all_consumed false o b.bids
            (fun pl _ => sweepBreak_not_limit false o pl.1 ht) hrem
        simp [hs, hr, hcons]
        exact Or.inl rfl
    · simp [hs, hr]
      exact noCross_set_bids b _ hWF hNC (executeMatches_keys_sublist false o b.bids)

theorem matchOrder_noCross (b : OrderBook) (o : Order) (hWF : b.WF)
    (hNC : b.NoCross) : (b.matchOrder o).book.NoCross := by
  unfold OrderBook.matchOrder
  cases ho : o.otype
  all_goals first
    | exact matchMarketOrder_noCross b o hWF hNC
    | exact matchLimitOrder_noCross b o hWF hNC
    | exact matchIOCOrder_noCross b o hWF hNC
    | exact matchFOKOrder_noCross b o hWF hNC

theorem cancelOrder_noCross (b : OrderBook) (id : OrderId) (hWF : b.WF)
    (hNC : b.NoCross) : ((b.cancelOrder id).2).NoCross := by
  unfold OrderBook.cancelOrder
  cases hf : b.findOrder id with
  | none => exact hNC
  | some o =>
      by_cases hs : o.side = Side.BUY
      · simp [hs]
        exact noCross_set_bids b _ hWF hNC (sideRemoveOrder_keys_sublist o.price id b.bids)
      · simp [hs]
        exact noCross_set_asks b _ hWF hNC (sideRemoveOrder_keys_sublist o.price id b.asks)

/-! ### Helper lemmas: type-tag invariance of the sweep -/

theorem sweepBreak_congr (a : Bool) (o o' : Order) (p : Price)
    (h1 : o.otype = o'.otype) (h2 : o.side = o'.side) (h3 : o.price = o'.price) :
    sweepBreak a o p = sweepBreak a o' p := by
  cases a <;> simp [sweepBreak, h1, h2, h3]

theorem executeFills_setType (taker : Order) (t : OrderType) (ms : List Order) :
    executeFills (taker.setType t) ms =
      ((executeFills taker ms).1.setType t, (executeFills taker ms).2.1,
        (executeFills taker ms).2.2) := by
  induction ms generalizing taker with
  | nil => simp [executeFills]
  | cons m ms ih =>
      by_cases h0 : taker.remainingQuantity = 0
      · simp [executeFills, h0]
      · by_cases h2 : (m.fill (min taker.remainingQuantity m.remainingQuantity)).isFilled
        · simp only [executeFills, setType_remaining, if_neg h0, if_pos h2,
            mkTrade_setType, fill_setType, ih]
        · simp only [executeFills, setType_remaining, if_neg h0, if_neg h2,
            mkTrade_setType, fill_setType, ih]

theorem executeMatches_setType (a : Bool) (taker : Order) (t : OrderType)
    (ls : BookSide)
    (hb : ∀ p ∈ ls.map Prod.fst,
      sweepBreak a (taker.setType t) p = sweepBreak a taker p) :
    executeMatches a (taker.setType t) ls =
      ((executeMatches a taker ls).1.setType t, (executeMatches a taker ls).2.1,
        (executeMatches a taker ls).2.2) := by
  induction ls generalizing taker with
  | nil => simp [executeMatches]
  | cons pl ls ih =>
      obtain ⟨p, lvl⟩ := pl
      by_cases h0 : taker.remainingQuantity = 0
      · rw [executeMatches_rem_zero a _ _ (by rw [setType_remaining]; exact h0),
            executeMatches_rem_zero a taker _ h0]
      · by_cases hbp : sweepBreak a taker p = true
        · have hbp' : sweepBreak a (taker.setType t) p = true := by
            rw [hb p (by simp)]
            exact hbp
          simp [executeMatches, h0, hbp, hbp']
        · have hbpf : sweepBreak a taker p = false := by simpa using hbp
          have hbp' : sweepBreak a (taker.setType t) p = false := by
            rw [hb p (by simp)]
            exact hbpf
          rw [executeMatches_cons a (taker.setType t) p lvl ls
                (by rw [setType_remaining]; exact h0) hbp',
              executeMatches_cons a taker p lvl ls h0 hbpf,
              executeFills_setType]
          have hbrec : ∀ p' ∈ ls.map Prod.fst,
              sweepBreak a ((executeFills taker lvl.orders).1.setType t) p' =
                sweepBreak a (executeFills taker lvl.orders).1 p' := by
            intro p' hp'
            calc sweepBreak a ((executeFills taker lvl.orders).1.setType t) p'
                = sweepBreak a (taker.setType t) p' :=
                  sweepBreak_congr a _ _ p' (by simp)
                    (by simp [executeFills_side]) (by simp [executeFills_price])
              _ = sweepBreak a taker p' := hb p' (by simp [hp'])
              _ = sweepBreak a (executeFills taker lvl.orders).1 p' :=
                  (sweepBreak_executeFills a taker lvl.orders p').symm
          rw [ih (executeFills taker lvl.orders).1 hbrec]

theorem executeMatches_setType_nonlimit (a : Bool) (o : Order) (t : OrderType)
    (ls : BookSide) (h1 : o.otype ≠ OrderType.LIMIT) (h2 : t ≠ OrderType.LIMIT) :
    executeMatches a (o.setType t) ls =
      ((executeMatches a o ls).1.setType t, (executeMatches a o ls).2.1,
        (executeMatches a o ls).2.2) := by
  refine executeMatches_setType a o t ls ?_
  intro p _
  rw [sweepBreak_not_limit a _ p (by rw [setType_otype]; exact h2),
      sweepBreak_not_limit a o p h1]

/-! ### Helper lemmas: absence from the index -/

theorem findOrder_none_iff (b : OrderBook) (id : OrderId) :
    b.findOrder id = none ↔ ∀ o ∈ b.allOrders, ¬o.orderId = id := by
  unfold OrderBook.findOrder
  rw [List.find?_eq_none]
  constructor
  · intro h o hm
    have := h o hm
    simpa using this
  · intro h o hm
    simpa using h o hm

theorem findOrder_none_asks (b : OrderBook) (X : BookSide) (id : OrderId)
    (h : b.findOrder id = none)
    (hsub : ∀ o' ∈ sideOrders X, ∃ m ∈ sideOrders b.asks, o'.orderId = m.orderId) :
    OrderBook.findOrder { bids := b.bids, asks := X } id = none := by
  rw [findOrder_none_iff] at h ⊢
  intro o hm
  unfold OrderBook.allOrders at hm
  rcases List.mem_append.mp hm with hl | hr
  · exact h o (List.mem_append.mpr (Or.inl hl))
  · obtain ⟨m, hmm, he⟩ := hsub o hr
    have := h m (List.mem_append.mpr (Or.inr hmm))
    rw [he]
    exact this

theorem findOrder_none_bids (b : OrderBook) (X : BookSide) (id : OrderId)
    (h : b.findOrder id = none)
    (hsub : ∀ o' ∈ sideOrders X, ∃ m ∈ sideOrders b.bids, o'.orderId = m.orderId) :
    OrderBook.findOrder { bids := X, asks := b.asks } id = none := by
  rw [findOrder_none_iff] at h ⊢
  intro o hm
  unfold OrderBook.allOrders at hm
  rcases List.mem_append.mp hm with hl | hr
  · obtain ⟨m, hmm, he⟩ := hsub o hl
    have := h m (List.mem_append.mpr (Or.inl hmm))
    rw [he]
    exact this
  · exact h o (List.mem_append.mpr (Or.inr hr))

theorem Order.ext' {x y : Order} (h1 : x.orderId = y.orderId) (h2 : x.side = y.side)
    (h3 : x.otype = y.otype) (h4 : x.price = y.price) (h5 : x.quantity = y.quantity)
    (h6 : x.remainingQuantity = y.remainingQuantity) (h7 : x.stopPrice = y.stopPrice)
    (h8 : x.status = y.status) : x = y := by
  cases x; cases y; simp_all

/-- C4 (amended): the claim holds for `matchOrder` (every order type) and
`cancelOrder` — starting from a well-formed, uncrossed book each leaves the
book uncrossed — but not for `modifyOrder`, which re-rests the order at its
new price without matching and can leave a crossed book (see the
counterexample). -/
theorem C4_amended_no_cross (b : OrderBook) (o : Order) (id : OrderId)
    (hWF : b.WF) (hNC : b.NoCross) :
    (b.matchOrder o).book.NoCross ∧ ((b.cancelOrder id).2).NoCross :=
  ⟨matchOrder_noCross b o hWF hNC, cancelOrder_noCross b id hWF hNC⟩

/-- Witness for C4 (amended) at the concrete two-sided book. -/
theorem C4_amended_witness :
    c4book.WF ∧ c4book.NoCross ∧
      ((c4book.matchOrder (mkOrder 9 Side.BUY OrderType.LIMIT 1050000 5)).book.NoCross ∧
        ((c4book.cancelOrder 1).2).NoCross) :=
  ⟨by decide, by decide,
    C4_amended_no_cross c4book (mkOrder 9 Side.BUY OrderType.LIMIT 1050000 5) 1
      (by decide) (by decide)⟩

/-- C2 (amended): an IOC order behaves exactly like a MARKET order — the
sweep applies NO price predicate (the predicate in `executeMatches` fires
only for type LIMIT), fills walk the opposite side best-first without a
price bound, any residual quantity is marked CANCELLED, and the order never
rests in the book or the order index. -/
theorem C2_amended (b : OrderBook) (o : Order) (h : o.otype = OrderType.IOC) :
    (b.matchOrder o).trades = (b.matchOrder (o.setType OrderType.MARKET)).trades ∧
    (b.matchOrder o).book = (b.matchOrder (o.setType OrderType.MARKET)).book ∧
    (b.matchOrder o).taker =
      ((b.matchOrder (o.setType OrderType.MARKET)).taker).setType OrderType.IOC ∧
    (0 < (b.matchOrder o).taker.remainingQuantity →
      (b.matchOrder o).taker.status = OrderStatus.CANCELLED) ∧
    (b.findOrder o.orderId = none →
      (b.matchOrder o).book.findOrder o.orderId = none) := by
  have hd1 : b.matchOrder o = b.matchIOCOrder o := by
    unfold OrderBook.matchOrder
    rw [h]
  have hd2 : b.matchOrder (o.setType OrderType.MARKET) =
      b.matchMarketOrder (o.setType OrderType.MARKET) := rfl
  rw [hd1, hd2]
  have hio : o.otype ≠ OrderType.LIMIT := by rw [h]; intro hc; cases hc
  have hmk : OrderType.MARKET ≠ OrderType.LIMIT := by intro hc; cases hc
  have hEa := executeMatches_setType_nonlimit true o OrderType.MARKET b.asks hio hmk
  have hEb := executeMatches_setType_nonlimit false o OrderType.MARKET b.bids hio hmk
  have hselfa : (executeMatches true o b.asks).1.setType OrderType.IOC =
      (executeMatches true o b.asks).1 :=
    setType_self _ _ (by rw [executeMatches_otype]; exact h)
  have hselfb : (executeMatches false o b.bids).1.setType OrderType.IOC =
      (executeMatches false o b.bids).1 :=
    setType_self _ _ (by rw [executeMatches_otype]; exact h)
  refine ⟨?_, ?_, ?_, ?_, ?_⟩
  · unfold OrderBook.matchIOCOrder OrderBook.matchMarketOrder
    by_cases hs : o.side = Side.BUY <;> simp [hs, hEa, hEb]
  · unfold OrderBook.matchIOCOrder OrderBook.matchMarketOrder
    by_cases hs : o.side = Side.BUY <;> simp [hs, hEa, hEb]
  · unfold OrderBook.matchIOCOrder OrderBook.matchMarketOrder
    by_cases hs : o.side = Side.BUY
    · simp [hs, hEa]
      by_cases hrem : 0 < (executeMatches true o b.asks).1.remainingQuantity
      · simp [hrem]
        apply Order.ext' <;> simp [executeMatches_otype, h]
      · simp [hrem, setType_setType, hselfa]
    · simp [hs, hEb]
      by_cases hrem : 0 < (executeMatches false o b.bids).1.remainingQuantity
      · simp [hrem]
        apply Order.ext' <;> simp [executeMatches_otype, h]
      · simp [hrem, setType_setType, hselfb]
  · unfold OrderBook.matchIOCOrder
    by_cases hs : o.side = Side.BUY
    · simp [hs]
      by_cases hrem : 0 < (executeMatches true o b.asks).1.remainingQuantity
      · intro _
        simp [hrem]
      · intro hcon
        exfalso
        simp [hrem] at hcon
    · simp [hs]
      by_cases hrem : 0 < (executeMatches false o b.bids).1.remainingQuantity
      · intro _
        simp [hrem]
      · intro hcon
        exfalso
        simp [hrem] at hcon
  · intro hnone
    unfold OrderBook.matchIOCOrder
    by_cases hs : o.side = Side.BUY
    · simp [hs]
      refine findOrder_none_asks b _ _ hnone ?_
      intro o' ho'
      obtain ⟨m, hm, h1, _⟩ := executeMatches_sideOrders_mem true o b.asks o' ho'
      exact ⟨m, hm, h1⟩
    · simp [hs]
      refine findOrder_none_bids b _ _ hnone ?_
      intro o' ho'
      obtain ⟨m, hm, h1, _⟩ := executeMatches_sideOrders_mem false o b.bids o' ho'
      exact ⟨m, hm, h1⟩

/-- Witness for C2 (amended): the concrete IOC order of the counterexample,
compared against its MARKET twin. -/
theorem C2_amended_witness :
    (mkOrder 2 Side.BUY OrderType.IOC 1000000 100).otype = OrderType.IOC ∧
    (c2book.matchOrder (mkOrder 2 Side.BUY OrderType.IOC 1000000 100)).trades =
      (c2book.matchOrder ((mkOrder 2 Side.BUY OrderType.IOC 1000000 100).setType
        OrderType.MARKET)).trades :=
  ⟨by decide, (C2_amended c2book (mkOrder 2 Side.BUY OrderType.IOC 1000000 100) rfl).1⟩

/-! ### Helper lemmas: books compared up to stored type tags -/

theorem setType_isActive (o : Order) (t : OrderType) :
    (o.setType t).isActive ↔ o.isActive := by
  unfold Order.isActive
  simp

theorem sideInsert_eraseTypes (before : Price → Price → Bool) (p : Price)
    (o : Order) (t : OrderType) (s : BookSide) :
    (sideInsert before p (o.setType t) s).map (fun pl => (pl.1, pl.2.eraseTypes)) =
      (sideInsert before p o s).map (fun pl => (pl.1, pl.2.eraseTypes)) := by
  induction s with
  | nil =>
      simp [sideInsert, PriceLevel.eraseTypes, PriceLevel.addOrder,
        PriceLevel.empty, setType_setType]
  | cons ql rest ih =>
      obtain ⟨q, l⟩ := ql
      by_cases he : p = q
      · simp [sideInsert, he, PriceLevel.eraseTypes, PriceLevel.addOrder,
          setType_setType]
      · by_cases hb : before p q
        · simp [sideInsert, he, hb, PriceLevel.eraseTypes, PriceLevel.addOrder,
            PriceLevel.empty, setType_setType]
        · simp only [sideInsert, if_neg he, if_neg hb, List.map_cons]
          rw [ih]

/-- C5 (amended): STOP_LOSS / STOP_LIMIT orders are routed through
`matchLimitOrder`, but the sweep's price predicate applies only to orders
whose type is LIMIT, so a stop order sweeps the opposite side with no price
bound and the claimed equivalence fails in general.  The equivalence with
the LIMIT twin does hold whenever every opposite-side level satisfies the
LIMIT price predicate for the order (BUY: level price ≤ order price; SELL:
level price ≥ order price) — a sufficient condition, not a necessary one
(a taker that fills before reaching a violating level also coincides):
then the trades agree, the resulting books agree up to the rested order's
type tag, and the final order states agree up to the type tag. -/
theorem C5_amended (b : OrderBook) (o : Order)
    (ht : o.otype = OrderType.STOP_LOSS ∨ o.otype = OrderType.STOP_LIMIT)
    (hpred : (o.side = Side.BUY → ∀ pl ∈ b.asks, pl.1 ≤ o.price) ∧
             (o.side = Side.SELL → ∀ pl ∈ b.bids, o.price ≤ pl.1)) :
    (b.matchOrder o).trades = (b.matchOrder (o.setType OrderType.LIMIT)).trades ∧
    (b.matchOrder o).book.eraseTypes =
      (b.matchOrder (o.setType OrderType.LIMIT)).book.eraseTypes ∧
    (b.matchOrder o).taker =
      ((b.matchOrder (o.setType OrderType.LIMIT)).taker).setType o.otype := by
  have hnl : o.otype ≠ OrderType.LIMIT := by
    rcases ht with h | h <;> rw [h] <;> intro hc <;> cases hc
  have hd1 : b.matchOrder o = b.matchLimitOrder o := by
    unfold OrderBook.matchOrder
    rcases ht with h | h <;> rw [h]
  have hd2 : b.matchOrder (o.setType OrderType.LIMIT) =
      b.matchLimitOrder (o.setType OrderType.LIMIT) := rfl
  rw [hd1, hd2]
  by_cases hs : o.side = Side.BUY
  · have hb : ∀ p ∈ b.asks.map Prod.fst,
        sweepBreak true (o.setType OrderType.LIMIT) p = sweepBreak true o p := by
      intro p hp
      obtain ⟨pl, hpl, he⟩ := List.mem_map.mp hp
      rw [sweepBreak_not_limit true o p hnl]
      simp [sweepBreak, hs]
      rw [← he]
      exact hpred.1 hs pl hpl
    have hE := executeMatches_setType true o OrderType.LIMIT b.asks hb
    have hself : (executeMatches true o b.asks).1.setType o.otype =
        (executeMatches true o b.asks).1 :=
      setType_self _ _ (executeMatches_otype true o b.asks)
    unfold OrderBook.matchLimitOrder
    rw [hE]
    by_cases hrest : 0 < (executeMatches true o b.asks).1.remainingQuantity ∧
        (executeMatches true o b.asks).1.isActive
    · simp [hs, hrest, setType_isActive, setType_setType, hself,
        OrderBook.eraseTypes, sideInsert_eraseTypes]
    · simp [hs, hrest, setType_isActive, setType_setType, hself]
  · have hside : o.side = Side.SELL := by
      cases hside2 : o.side
      · exact absurd hside2 hs
      · rfl
    have hb : ∀ p ∈ b.bids.map Prod.fst,
        sweepBreak false (o.setType OrderType.LIMIT) p = sweepBreak false o p := by
      intro p hp
      obtain ⟨pl, hpl, he⟩ := List.mem_map.mp hp
      rw [sweepBreak_not_limit false o p hnl]
      simp [sweepBreak, hside]
      rw [← he]
      exact hpred.2 hside pl hpl
    have hE := executeMatches_setType false o OrderType.LIMIT b.bids hb
    have hself : (executeMatches false o b.bids).1.setType o.otype =
        (executeMatches false o b.bids).1 :=
      setType_self _ _ (executeMatches_otype false o b.bids)
    unfold OrderBook.matchLimitOrder
    rw [hE]
    by_cases hrest : 0 < (executeMatches false o b.bids).1.remainingQuantity ∧
        (executeMatches false o b.bids).1.isActive
    · simp [hs, hrest, setType_isActive, setType_setType, hself,
        OrderBook.eraseTypes, sideInsert_eraseTypes]
    · simp [hs, hrest, setType_isActive, setType_setType, hself]

/-- Witness for C5 (amended): a BUY STOP_LIMIT at 150.0000 (every ask level
satisfies the predicate) against the one-ask book. -/
theorem C5_amended_witness :
    ((mkOrder 3 Side.BUY OrderType.STOP_LIMIT 1500000 30).otype = OrderType.STOP_LOSS ∨
      (mkOrder 3 Side.BUY OrderType.STOP_LIMIT 1500000 30).otype = OrderType.STOP_LIMIT) ∧
    (c5book.matchOrder (mkOrder 3 Side.BUY OrderType.STOP_LIMIT 1500000 30)).trades =
      (c5book.matchOrder ((mkOrder 3 Side.BUY OrderType.STOP_LIMIT 1500000 30).setType
        OrderType.LIMIT)).trades :=
  ⟨by decide,
    (C5_amended c5book (mkOrder 3 Side.BUY OrderType.STOP_LIMIT 1500000 30)
      (by decide) (by decide)).1⟩

/-! ### Helper lemmas: taker status after a sweep -/

@[simp] theorem mkOrder_otype (id : OrderId) (s : Side) (t : OrderType)
    (p : Price) (q : Quantity) (sp : Price) : (mkOrder id s t p q sp).otype = t := rfl

@[simp] theorem mkOrder_side (id : OrderId) (s : Side) (t : OrderType)
    (p : Price) (q : Quantity) (sp : Price) : (mkOrder id s t p q sp).side = s := rfl

@[simp] theorem mkOrder_orderId (id : OrderId) (s : Side) (t : OrderType)
    (p : Price) (q : Quantity) (sp : Price) : (mkOrder id s t p q sp).orderId = id := rfl

@[simp] theorem mkOrder_price (id : OrderId) (s : Side) (t : OrderType)
    (p : Price) (q : Quantity) (sp : Price) : (mkOrder id s t p q sp).price = p := rfl

@[simp] theorem mkOrder_quantity (id : OrderId) (s : Side) (t : OrderType)
    (p : Price) (q : Quantity) (sp : Price) : (mkOrder id s t p q sp).quantity = q := rfl

@[simp] theorem mkOrder_remaining (id : OrderId) (s : Side) (t : OrderType)
    (p : Price) (q : Quantity) (sp : Price) :
    (mkOrder id s t p q sp).remainingQuantity = q := rfl

@[simp] theorem mkOrder_status (id : OrderId) (s : Side) (t : OrderType)
    (p : Price) (q : Quantity) (sp : Price) :
    (mkOrder id s t p q sp).status = OrderStatus.PENDING := rfl

theorem executeFills_taker_ok (taker : Order) (ms : List Order)
    (h : TakerOK taker) : TakerOK (executeFills taker ms).1 := by
  induction ms generalizing taker with
  | nil => simpa [executeFills] using h
  | cons m ms ih =>
      by_cases h0 : taker.remainingQuantity = 0
      · simpa [executeFills, h0] using h
      · by_cases h2 : (m.fill (min taker.remainingQuantity m.remainingQuantity)).isFilled
        · simp only [executeFills, if_neg h0, if_pos h2]
          exact ih _ (h.fill _)
        · simp only [executeFills, if_neg h0, if_neg h2]
          exact ih _ (h.fill _)

theorem executeMatches_taker_ok (a : Bool) (taker : Order) (ls : BookSide)
    (h : TakerOK taker) : TakerOK (executeMatches a taker ls).1 := by
  induction ls generalizing taker with
  | nil => simpa [executeMatches] using h
  | cons pl ls ih =>
      obtain ⟨p, lvl⟩ := pl
      by_cases h0 : taker.remainingQuantity = 0
      · rw [executeMatches_rem_zero a taker _ h0]
        exact h
      · by_cases hb : sweepBreak a taker p = true
        · simpa [executeMatches, h0, hb] using h
        · rw [executeMatches_cons a taker p lvl ls h0 (by simpa using hb)]
          exact ih _ (executeFills_taker_ok taker lvl.orders h)

theorem TakerOK.filled_iff {o : Order} (h : TakerOK o) :
    o.status = OrderStatus.FILLED ↔ o.remainingQuantity = 0 := by
  obtain ⟨h1, h2, h3⟩ := h
  by_cases hz : o.remainingQuantity = 0
  · rw [if_pos hz] at h3
    exact ⟨fun _ => hz, fun _ => h3⟩
  · rw [if_neg hz] at h3
    constructor
    · intro hf
      by_cases hlt : o.remainingQuantity < o.quantity
      · rw [if_pos hlt] at h3
        rw [h3] at hf
        cases hf
      · rw [if_neg hlt] at h3
        rw [h3] at hf
        cases hf
    · intro hr
      exact absurd hr hz

theorem TakerOK.active_of_rem {o : Order} (h : TakerOK o)
    (hr : ¬o.remainingQuantity = 0) :
    o.status = OrderStatus.PENDING ∨ o.status = OrderStatus.PARTIAL_FILL := by
  obtain ⟨h1, h2, h3⟩ := h
  rw [if_neg hr] at h3
  by_cases hlt : o.remainingQuantity < o.quantity
  · rw [if_pos hlt] at h3
    exact Or.inr h3
  · rw [if_neg hlt] at h3
    exact Or.inl h3

theorem sideInsert_mem_self (before : Price → Price → Bool) (p : Price)
    (o : Order) (s : BookSide) : o ∈ sideOrders (sideInsert before p o s) := by
  induction s with
  | nil => simp [sideInsert, PriceLevel.addOrder, PriceLevel.empty]
  | cons ql rest ih =>
      obtain ⟨q, l⟩ := ql
      by_cases he : p = q
      · simp [sideInsert, he, PriceLevel.addOrder]
      · by_cases hb : before p q
        · simp [sideInsert, he, hb, PriceLevel.addOrder, PriceLevel.empty]
        · simp only [sideInsert, if_neg he, hb, Bool.false_eq_true, if_false,
            sideOrders_cons, List.mem_append]
          exact Or.inr ih

theorem findOrder_isSome_of_mem (b : OrderBook) (o : Order)
    (hmem : o ∈ b.allOrders) : (b.findOrder o.orderId).isSome := by
  unfold OrderBook.findOrder
  rw [List.find?_isSome]
  exact ⟨o, hmem, by simp⟩

theorem filled_iff_cancel_branch (x : Order) (hok : TakerOK x) :
    ((if 0 < x.remainingQuantity then { x with status := OrderStatus.CANCELLED }
        else x).status = OrderStatus.FILLED ↔
      (if 0 < x.remainingQuantity then { x with status := OrderStatus.CANCELLED }
        else x).remainingQuantity = 0) := by
  by_cases hr : 0 < x.remainingQuantity
  · simp only [if_pos hr]
    constructor
    · intro hf
      simp at hf
    · intro hz
      simp only at hz
      exfalso
      rw [hz] at hr
      exact lt_irrefl 0 hr
  · simp only [if_neg hr]
    exact hok.filled_iff


theorem matchMarketOrder_filled_iff (b : OrderBook) (o : Order) (h : TakerOK o) :
    ((b.matchMarketOrder o).taker.status = OrderStatus.FILLED ↔
      (b.matchMarketOrder o).taker.remainingQuantity = 0) := by
  unfold OrderBook.matchMarketOrder
  cases hcs : o.side
  · exact filled_iff_cancel_branch _ (executeMatches_taker_ok true o b.asks h)
  · exact filled_iff_cancel_branch _ (executeMatches_taker_ok false o b.bids h)

theorem matchIOCOrder_filled_iff (b : OrderBook) (o : Order) (h : TakerOK o) :
    ((b.matchIOCOrder o).taker.status = OrderStatus.FILLED ↔
      (b.matchIOCOrder o).taker.remainingQuantity = 0) := by
  unfold OrderBook.matchIOCOrder
  cases hcs : o.side
  · exact filled_iff_cancel_branch _ (executeMatches_taker_ok true o b.asks h)
  · exact filled_iff_cancel_branch _ (executeMatches_taker_ok false o b.bids h)

theorem matchLimitOrder_taker (b : OrderBook) (o : Order) :
    (b.matchLimitOrder o).taker =
      if o.side = Side.BUY then (executeMatches true o b.asks).1
      else (executeMatches false o b.bids).1 := by
  unfold OrderBook.matchLimitOrder
  by_cases hcs : o.side = Side.BUY
  · rw [if_pos hcs, if_pos hcs]
    by_cases hrest : 0 < (executeMatches true o b.asks).1.remainingQuantity ∧
        (executeMatches true o b.asks).1.isActive
    · rw [if_pos hrest]
    · rw [if_neg hrest]
  · rw [if_neg hcs, if_neg hcs]
    by_cases hrest : 0 < (executeMatches false o b.bids).1.remainingQuantity ∧
        (executeMatches false o b.bids).1.isActive
    · rw [if_pos hrest]
    · rw [if_neg hrest]

theorem matchLimitOrder_filled_iff (b : OrderBook) (o : Order) (h : TakerOK o) :
    ((b.matchLimitOrder o).taker.status = OrderStatus.FILLED ↔
      (b.matchLimitOrder o).taker.remainingQuantity = 0) := by
  rw [matchLimitOrder_taker]
  by_cases hcs : o.side = Side.BUY
  · rw [if_pos hcs]
    exact (executeMatches_taker_ok true o b.asks h).filled_iff
  · rw [if_neg hcs]
    exact (executeMatches_taker_ok false o b.bids h).filled_iff

theorem matchFOKOrder_filled_iff (b : OrderBook) (o : Order) (h : TakerOK o)
    (hrm : ¬o.remainingQuantity = 0) :
    ((b.matchFOKOrder o).taker.status = OrderStatus.FILLED ↔
      (b.matchFOKOrder o).taker.remainingQuantity = 0) := by
  unfold OrderBook.matchFOKOrder
  by_cases hcf : b.canFillEntireOrder o = true
  · rw [if_pos hcf]
    cases hcs : o.side
    · exact (executeMatches_taker_ok true o b.asks h).filled_iff
    · exact (executeMatches_taker_ok false o b.bids h).filled_iff
  · rw [if_neg hcf]
    constructor
    · intro hf
      simp at hf
    · intro hz
      exact absurd hz hrm

theorem matchOrder_filled_iff (b : OrderBook) (o : Order) (h : TakerOK o)
    (hrm : ¬o.remainingQuantity = 0) :
    ((b.matchOrder o).taker.status = OrderStatus.FILLED ↔
      (b.matchOrder o).taker.remainingQuantity = 0) := by
  unfold OrderBook.matchOrder
  cases ho : o.otype
  · exact matchMarketOrder_filled_iff b o h
  · exact matchLimitOrder_filled_iff b o h
  · exact matchLimitOrder_filled_iff b o h
  · exact matchLimitOrder_filled_iff b o h
  · exact matchIOCOrder_filled_iff b o h
  · exact matchFOKOrder_filled_iff b o h hrm

theorem matchOrder_taker_absent (b : OrderBook) (o : Order) (id : OrderId)
    (habs : b.findOrder id = none)
    (ht : o.otype = OrderType.MARKET ∨ o.otype = OrderType.IOC ∨
      o.otype = OrderType.FOK) :
    (b.matchOrder o).book.findOrder id = none := by
  unfold OrderBook.matchOrder
  cases ho : o.otype
  case LIMIT => rw [ho] at ht; rcases ht with h | h | h <;> cases h
  case STOP_LOSS => rw [ho] at ht; rcases ht with h | h | h <;> cases h
  case STOP_LIMIT => rw [ho] at ht; rcases ht with h | h | h <;> cases h
  case MARKET =>
      unfold OrderBook.matchMarketOrder
      cases hcs : o.side
      · refine findOrder_none_asks b _ id habs ?_
        intro o' ho'
        obtain ⟨m, hm, h1, _⟩ := executeMatches_sideOrders_mem true o b.asks o' ho'
        exact ⟨m, hm, h1⟩
      · refine findOrder_none_bids b _ id habs ?_
        intro o' ho'
        obtain ⟨m, hm, h1, _⟩ := executeMatches_sideOrders_mem false o b.bids o' ho'
        exact ⟨m, hm, h1⟩
  case IOC =>
      unfold OrderBook.matchIOCOrder
      cases hcs : o.side
      · refine findOrder_none_asks b _ id habs ?_
        intro o' ho'
        obtain ⟨m, hm, h1, _⟩ := executeMatches_sideOrders_mem true o b.asks o' ho'
        exact ⟨m, hm, h1⟩
      · refine findOrder_none_bids b _ id habs ?_
        intro o' ho'
        obtain ⟨m, hm, h1, _⟩ := executeMatches_sideOrders_mem false o b.bids o' ho'
        exact ⟨m, hm, h1⟩
  case FOK =>
      unfold OrderBook.matchFOKOrder
      by_cases hcf : b.canFillEntireOrder o = true
      · rw [if_pos hcf]
        cases hcs : o.side
        · refine findOrder_none_asks b _ id habs ?_
          intro o' ho'
          obtain ⟨m, hm, h1, _⟩ := executeMatches_sideOrders_mem true o b.asks o' ho'
          exact ⟨m, hm, h1⟩
        · refine findOrder_none_bids b _ id habs ?_
          intro o' ho'
          obtain ⟨m, hm, h1, _⟩ := executeMatches_sideOrders_mem false o b.bids o' ho'
          exact ⟨m, hm, h1⟩
      · rw [if_neg hcf]
        exact habs

theorem matchLimitOrder_book_rest_buy (b : OrderBook) (o : Order)
    (hcs : o.side = Side.BUY)
    (hrest : 0 < (executeMatches true o b.asks).1.remainingQuantity ∧
      (executeMatches true o b.asks).1.isActive) :
    (b.matchLimitOrder o).book =
      { bids := sideInsert bidBefore (executeMatches true o b.asks).1.price
          (executeMatches true o b.asks).1 b.bids,
        asks := (executeMatches true o b.asks).2.2 } := by
  unfold OrderBook.matchLimitOrder
  rw [if_pos hcs, if_pos hrest]

theorem matchLimitOrder_book_rest_sell (b : OrderBook) (o : Order)
    (hcs : ¬o.side = Side.BUY)
    (hrest : 0 < (executeMatches false o b.bids).1.remainingQuantity ∧
      (executeMatches false o b.bids).1.isActive) :
    (b.matchLimitOrder o).book =
      { bids := (executeMatches false o b.bids).2.2,
        asks := sideInsert askBefore (executeMatches false o b.bids).1.price
          (executeMatches false o b.bids).1 b.asks } := by
  unfold OrderBook.matchLimitOrder
  rw [if_neg hcs, if_pos hrest]

theorem matchLimitOrder_rest (b : OrderBook) (o : Order) (h : TakerOK o)
    (hrem2 : 0 < (b.matchLimitOrder o).taker.remainingQuantity) :
    ((b.matchLimitOrder o).book.findOrder o.orderId).isSome ∧
    ((b.matchLimitOrder o).taker.status = OrderStatus.PENDING ∨
      (b.matchLimitOrder o).taker.status = OrderStatus.PARTIAL_FILL) := by
  have htk := matchLimitOrder_taker b o
  by_cases hcs : o.side = Side.BUY
  · have htk2 : (b.matchLimitOrder o).taker = (executeMatches true o b.asks).1 := by
      rw [htk, if_pos hcs]
    rw [htk2] at hrem2
    have hrm : ¬(executeMatches true o b.asks).1.remainingQuantity = 0 := by
      intro hz
      rw [hz] at hrem2
      exact lt_irrefl 0 hrem2
    have hact := (executeMatches_taker_ok true o b.asks h).active_of_rem hrm
    have hrest : 0 < (executeMatches true o b.asks).1.remainingQuantity ∧
        (executeMatches true o b.asks).1.isActive := ⟨hrem2, hact⟩
    rw [htk2, matchLimitOrder_book_rest_buy b o hcs hrest]
    constructor
    · have hid : (executeMatches true o b.asks).1.orderId = o.orderId :=
        executeMatches_orderId true o b.asks
      rw [← hid]
      apply findOrder_isSome_of_mem
      unfold OrderBook.allOrders
      exact List.mem_append.mpr (Or.inl (sideInsert_mem_self bidBefore _ _ _))
    · exact hact
  · have htk2 : (b.matchLimitOrder o).taker = (executeMatches false o b.bids).1 := by
      rw [htk, if_neg hcs]
    rw [htk2] at hrem2
    have hrm : ¬(executeMatches false o b.bids).1.remainingQuantity = 0 := by
      intro hz
      rw [hz] at hrem2
      exact lt_irrefl 0 hrem2
    have hact := (executeMatches_taker_ok false o b.bids h).active_of_rem hrm
    have hrest : 0 < (executeMatches false o b.bids).1.remainingQuantity ∧
        (executeMatches false o b.bids).1.isActive := ⟨hrem2, hact⟩
    rw [htk2, matchLimitOrder_book_rest_sell b o hcs hrest]
    constructor
    · have hid : (executeMatches false o b.bids).1.orderId = o.orderId :=
        executeMatches_orderId false o b.bids
      rw [← hid]
      apply findOrder_isSome_of_mem
      unfold OrderBook.allOrders
      exact List.mem_append.mpr (Or.inr (sideInsert_mem_self askBefore _ _ _))
    · exact hact

/-- C6 (amended): for every freshly constructed order with POSITIVE quantity
(and an id not already in the book), after `matchOrder`: status = FILLED iff
remaining = 0; MARKET, IOC and FOK orders are never resting in the book; a
LIMIT order with remaining > 0 rests and has status PENDING or PARTIAL_FILL.
(A zero-quantity order breaks the biconditional: it ends with remaining = 0
but status PENDING — see the counterexample.) -/
theorem C6_amended (b : OrderBook) (id : OrderId) (s : Side) (t : OrderType)
    (p : Price) (q : Quantity) (sp : Price) (hq : 0 < q)
    (habs : b.findOrder id = none) :
    ((b.matchOrder (mkOrder id s t p q sp)).taker.status = OrderStatus.FILLED ↔
      (b.matchOrder (mkOrder id s t p q sp)).taker.remainingQuantity = 0) ∧
    ((t = OrderType.MARKET ∨ t = OrderType.IOC ∨ t = OrderType.FOK) →
      (b.matchOrder (mkOrder id s t p q sp)).book.findOrder id = none) ∧
    (t = OrderType.LIMIT →
      0 < (b.matchOrder (mkOrder id s t p q sp)).taker.remainingQuantity →
      ((b.matchOrder (mkOrder id s t p q sp)).book.findOrder id).isSome ∧
      ((b.matchOrder (mkOrder id s t p q sp)).taker.status = OrderStatus.PENDING ∨
        (b.matchOrder (mkOrder id s t p q sp)).taker.status =
          OrderStatus.PARTIAL_FILL)) := by
  have hok : TakerOK (mkOrder id s t p q sp) := takerOK_mkOrder id s t p q sp hq
  have hrm : ¬(mkOrder id s t p q sp).remainingQuantity = 0 := by
    simp only [mkOrder_remaining]
    intro hz
    rw [hz] at hq
    exact lt_irrefl 0 hq
  refine ⟨matchOrder_filled_iff b _ hok hrm, ?_, ?_⟩
  · intro ht
    exact matchOrder_taker_absent b _ id habs (by simpa using ht)
  · intro htl hrem2
    subst htl
    have hd : b.matchOrder (mkOrder id s OrderType.LIMIT p q sp) =
        b.matchLimitOrder (mkOrder id s OrderType.LIMIT p q sp) := rfl
    rw [hd] at hrem2 ⊢
    have hrest := matchLimitOrder_rest b (mkOrder id s OrderType.LIMIT p q sp) hok hrem2
    simpa using hrest

/-- Witness for C6 (amended): a fresh BUY LIMIT 50 @ 150.0000 on the
one-ask book. -/
theorem C6_amended_witness :
    0 < 50 ∧ c1book.findOrder 7 = none ∧
    ((c1book.matchOrder (mkOrder 7 Side.BUY OrderType.LIMIT 1500000 50)).taker.status =
        OrderStatus.FILLED ↔
      (c1book.matchOrder (mkOrder 7 Side.BUY OrderType.LIMIT 1500000 50)).taker.remainingQuantity
        = 0) :=
  ⟨by decide, by decide,
    (C6_amended c1book 7 Side.BUY OrderType.LIMIT 1500000 50 0 (by decide) (by decide)).1⟩

/-! ### Helper lemmas: where the trades come from -/

theorem matchMarketOrder_trades (b : OrderBook) (o : Order) :
    (b.matchMarketOrder o).trades =
      if o.side = Side.BUY then (executeMatches true o b.asks).2.1
      else (executeMatches false o b.bids).2.1 := by
  unfold OrderBook.matchMarketOrder
  by_cases hcs : o.side = Side.BUY
  · rw [if_pos hcs, if_pos hcs]
  · rw [if_neg hcs, if_neg hcs]

theorem matchIOCOrder_trades (b : OrderBook) (o : Order) :
    (b.matchIOCOrder o).trades =
      if o.side = Side.BUY then (executeMatches true o b.asks).2.1
      else (executeMatches false o b.bids).2.1 := by
  unfold OrderBook.matchIOCOrder
  by_cases hcs : o.side = Side.BUY
  · rw [if_pos hcs, if_pos hcs]
  · rw [if_neg hcs, if_neg hcs]

theorem matchLimitOrder_trades (b : OrderBook) (o : Order) :
    (b.matchLimitOrder o).trades =
      if o.side = Side.BUY then (executeMatches true o b.asks).2.1
      else (executeMatches false o b.bids).2.1 := by
  unfold OrderBook.matchLimitOrder
  by_cases hcs : o.side = Side.BUY
  · rw [if_pos hcs, if_pos hcs]
    by_cases hrest : 0 < (executeMatches true o b.asks).1.remainingQuantity ∧
        (executeMatches true o b.asks).1.isActive
    · rw [if_pos hrest]
    · rw [if_neg hrest]
  · rw [if_neg hcs, if_neg hcs]
    by_cases hrest : 0 < (executeMatches false o b.bids).1.remainingQuantity ∧
        (executeMatches false o b.bids).1.isActive
    · rw [if_pos hrest]
    · rw [if_neg hrest]

theorem matchOrder_trades_sub (b : OrderBook) (o : Order) :
    (b.matchOrder o).trades = [] ∨
    (b.matchOrder o).trades = (executeMatches true o b.asks).2.1 ∨
    (b.matchOrder o).trades = (executeMatches false o b.bids).2.1 := by
  unfold OrderBook.matchOrder
  cases ho : o.otype
  case MARKET =>
      rw [matchMarketOrder_trades]
      by_cases hcs : o.side = Side.BUY
      · rw [if_pos hcs]; exact Or.inr (Or.inl rfl)
      · rw [if_neg hcs]; exact Or.inr (Or.inr rfl)
  case LIMIT =>
      rw [matchLimitOrder_trades]
      by_cases hcs : o.side = Side.BUY
      · rw [if_pos hcs]; exact Or.inr (Or.inl rfl)
      · rw [if_neg hcs]; exact Or.inr (Or.inr rfl)
  case STOP_LOSS =>
      rw [matchLimitOrder_trades]
      by_cases hcs : o.side = Side.BUY
      · rw [if_pos hcs]; exact Or.inr (Or.inl rfl)
      · rw [if_neg hcs]; exact Or.inr (Or.inr rfl)
  case STOP_LIMIT =>
      rw [matchLimitOrder_trades]
      by_cases hcs : o.side = Side.BUY
      · rw [if_pos hcs]; exact Or.inr (Or.inl rfl)
      · rw [if_neg hcs]; exact Or.inr (Or.inr rfl)
  case IOC =>
      rw [matchIOCOrder_trades]
      by_cases hcs : o.side = Side.BUY
      · rw [if_pos hcs]; exact Or.inr (Or.inl rfl)
      · rw [if_neg hcs]; exact Or.inr (Or.inr rfl)
  case FOK =>
      unfold OrderBook.matchFOKOrder
      by_cases hcf : b.canFillEntireOrder o = true
      · rw [if_pos hcf]
        cases hcs : o.side
        · exact Or.inr (Or.inl rfl)
        · exact Or.inr (Or.inr rfl)
      · rw [if_neg hcf]
        exact Or.inl rfl

/-- C7: every trade emitted by `matchOrder` carries the PASSIVE side's price:
there is a resting order m of the pre-call book such that the trade's price
is m's price field (which the sweep never mutates), the trade's maker id is
m's id, and the trade's taker id is the incoming order's id on its own
side. -/
theorem C7_passive_price (b : OrderBook) (o : Order) (t : Trade)
    (ht : t ∈ (b.matchOrder o).trades) :
    ∃ m ∈ b.allOrders, t.price = m.price ∧
      (o.side = Side.BUY → t.buyOrderId = o.orderId ∧ t.sellOrderId = m.orderId) ∧
      (o.side = Side.SELL → t.sellOrderId = o.orderId ∧ t.buyOrderId = m.orderId) := by
  rcases matchOrder_trades_sub b o with h | h | h
  · rw [h] at ht
    cases ht
  · rw [h] at ht
    obtain ⟨m, hm, h1, h2, h3⟩ := executeMatches_trades true o b.asks t ht
    exact ⟨m, List.mem_append.mpr (Or.inr hm), h1, h2, h3⟩
  · rw [h] at ht
    obtain ⟨m, hm, h1, h2, h3⟩ := executeMatches_trades false o b.bids t ht
    exact ⟨m, List.mem_append.mpr (Or.inl hm), h1, h2, h3⟩

/-- Witness for C7: the S2 price-improvement scenario — a BUY LIMIT at
152.0000 against the ask resting at 150.0000 trades at 150.0000, the
resting order's price. -/
theorem C7_passive_price_witness :
    (⟨2, 1, 1500000, 50⟩ : Trade) ∈
      (c1book.matchOrder (mkOrder 2 Side.BUY OrderType.LIMIT 1520000 50)).trades ∧
    ∃ m ∈ c1book.allOrders, (⟨2, 1, 1500000, 50⟩ : Trade).price = m.price ∧
      ((mkOrder 2 Side.BUY OrderType.LIMIT 1520000 50).side = Side.BUY →
        (⟨2, 1, 1500000, 50⟩ : Trade).buyOrderId =
            (mkOrder 2 Side.BUY OrderType.LIMIT 1520000 50).orderId ∧
          (⟨2, 1, 1500000, 50⟩ : Trade).sellOrderId = m.orderId) ∧
      ((mkOrder 2 Side.BUY OrderType.LIMIT 1520000 50).side = Side.SELL →
        (⟨2, 1, 1500000, 50⟩ : Trade).sellOrderId =
            (mkOrder 2 Side.BUY OrderType.LIMIT 1520000 50).orderId ∧
          (⟨2, 1, 1500000, 50⟩ : Trade).buyOrderId = m.orderId) :=
  ⟨by decide,
    C7_passive_price c1book (mkOrder 2 Side.BUY OrderType.LIMIT 1520000 50)
      (⟨2, 1, 1500000, 50⟩ : Trade) (by decide)⟩

/-! ### Helper lemmas: add-then-cancel round trip -/

theorem find?_no_match_append {l1 : List Order} {o : Order}
    (h : ∀ x ∈ l1, ¬x.orderId = o.orderId) :
    (l1 ++ [o]).find? (fun x => x.orderId = o.orderId) = some o := by
  induction l1 with
  | nil => simp
  | cons a l1 ih =>
      have ha : ¬a.orderId = o.orderId := h a (List.mem_cons_self _ _)
      rw [List.cons_append, List.find?_cons_of_neg _ (by simpa using ha)]
      exact ih (fun x hx => h x (List.mem_cons_of_mem _ hx))

theorem eraseP_no_match_append {l1 : List Order} {o : Order}
    (h : ∀ x ∈ l1, ¬x.orderId = o.orderId) :
    (l1 ++ [o]).eraseP (fun x => x.orderId = o.orderId) = l1 := by
  induction l1 with
  | nil => simp [List.eraseP_cons_of_pos]
  | cons a l1 ih =>
      have ha : ¬a.orderId = o.orderId := h a (List.mem_cons_self _ _)
      rw [List.cons_append, List.eraseP_cons_of_neg (by simpa using ha)]
      rw [ih (fun x hx => h x (List.mem_cons_of_mem _ hx))]

theorem removeOrder_addOrder (l : PriceLevel) (o : Order)
    (h : ∀ x ∈ l.orders, ¬x.orderId = o.orderId) :
    (l.addOrder o).removeOrder o.orderId = l := by
  unfold PriceLevel.removeOrder PriceLevel.addOrder
  simp only
  rw [find?_no_match_append h]
  simp only
  rw [eraseP_no_match_append h, Nat.add_sub_cancel]

theorem sideOrders_sideInsert (before : Price → Price → Bool) (p : Price)
    (o : Order) (s : BookSide) :
    ∃ l1 l2, sideOrders s = l1 ++ l2 ∧
      sideOrders (sideInsert before p o s) = l1 ++ o :: l2 := by
  induction s with
  | nil =>
      exact ⟨[], [], rfl, by simp [sideInsert, PriceLevel.addOrder, PriceLevel.empty]⟩
  | cons ql rest ih =>
      obtain ⟨q, l⟩ := ql
      by_cases he : p = q
      · refine ⟨l.orders, sideOrders rest, by simp, ?_⟩
        simp [sideInsert, he, PriceLevel.addOrder]
      · by_cases hb : before p q
        · refine ⟨[], sideOrders ((q, l) :: rest), rfl, ?_⟩
          simp [sideInsert, he, hb, PriceLevel.addOrder, PriceLevel.empty]
        · obtain ⟨l1, l2, h1, h2⟩ := ih
          refine ⟨l.orders ++ l1, l2, by simp [h1], ?_⟩
          simp only [sideInsert, if_neg he, hb, Bool.false_eq_true, if_false,
            sideOrders_cons, h2, List.append_assoc, List.cons_append]

theorem sideRemoveOrder_sideInsert (before : Price → Price → Bool) (p : Price)
    (o : Order) (s : BookSide)
    (habs : ∀ x ∈ sideOrders s, ¬x.orderId = o.orderId)
    (hne : ∀ pl ∈ s, pl.2.orders ≠ []) :
    sideRemoveOrder p o.orderId (sideInsert before p o s) = s := by
  induction s with
  | nil =>
      simp [sideInsert, sideRemoveOrder, PriceLevel.removeOrder,
        PriceLevel.addOrder, PriceLevel.empty, PriceLevel.isEmpty, List.eraseP]
  | cons ql rest ih =>
      obtain ⟨q, l⟩ := ql
      have hql : ∀ x ∈ l.orders, ¬x.orderId = o.orderId := by
        intro x hx
        exact habs x (by simp [hx])
      by_cases he : p = q
      · rw [sideInsert, if_pos he]
        rw [sideRemoveOrder, if_pos he.symm]
        rw [removeOrder_addOrder l o hql]
        have hl : ¬l.isEmpty := by
          unfold PriceLevel.isEmpty
          exact hne (q, l) (List.mem_cons_self _ _)
        rw [if_neg hl]
      · by_cases hb : before p q
        · rw [sideInsert, if_neg he, if_pos hb]
          rw [sideRemoveOrder, if_pos rfl]
          have hrm : (PriceLevel.empty.addOrder o).removeOrder o.orderId = PriceLevel.empty :=
            removeOrder_addOrder PriceLevel.empty o (by intro x hx; cases hx)
          rw [hrm]
          have : (PriceLevel.empty).isEmpty := rfl
          rw [if_pos this]
        · rw [sideInsert, if_neg he, if_neg hb]
          have hqp : ¬q = p := fun hc => he hc.symm
          rw [sideRemoveOrder, if_neg hqp]
          rw [ih (fun x hx => habs x (by simp [hx]))
              (fun pl hpl => hne pl (List.mem_cons_of_mem _ hpl))]

theorem find?_eq_some_middle {l1 l2 : List Order} {o : Order}
    (h : ∀ x ∈ l1, ¬x.orderId = o.orderId) :
    (l1 ++ o :: l2).find? (fun x => x.orderId = o.orderId) = some o := by
  induction l1 with
  | nil => simp
  | cons a l1 ih =>
      rw [List.cons_append,
        List.find?_cons_of_neg _ (by simpa using h a (List.mem_cons_self _ _))]
      exact ih (fun x hx => h x (List.mem_cons_of_mem _ hx))

theorem findOrder_addOrder_self (b : OrderBook) (o : Order)
    (habs : b.findOrder o.orderId = none) :
    (b.addOrder o).findOrder o.orderId = some o := by
  have hall := (findOrder_none_iff b o.orderId).mp habs
  unfold OrderBook.addOrder
  by_cases hcs : o.side = Side.BUY
  · rw [if_pos hcs]
    unfold OrderBook.findOrder OrderBook.allOrders
    obtain ⟨l1, l2, h1, h2⟩ := sideOrders_sideInsert bidBefore o.price o b.bids
    simp only
    rw [h2, List.append_assoc]
    refine find?_eq_some_middle ?_
    intro x hx
    have hxb : x ∈ sideOrders b.bids := by
      rw [h1]
      exact List.mem_append.mpr (Or.inl hx)
    exact hall x (List.mem_append.mpr (Or.inl hxb))
  · rw [if_neg hcs]
    unfold OrderBook.findOrder OrderBook.allOrders
    obtain ⟨l1, l2, h1, h2⟩ := sideOrders_sideInsert askBefore o.price o b.asks
    simp only
    rw [h2, ← List.append_assoc]
    refine find?_eq_some_middle ?_
    intro x hx
    rcases List.mem_append.mp hx with hxa | hxa
    · exact hall x (List.mem_append.mpr (Or.inl hxa))
    · have hxb : x ∈ sideOrders b.asks := by
        rw [h1]
        exact List.mem_append.mpr (Or.inl hxa)
      exact hall x (List.mem_append.mpr (Or.inr hxb))

theorem cancelOrder_found (b : OrderBook) (id : OrderId) (o : Order)
    (hf : b.findOrder id = some o) :
    b.cancelOrder id =
      if o.side = Side.BUY then
        (true, { b with bids := sideRemoveOrder o.price id b.bids })
      else
        (true, { b with asks := sideRemoveOrder o.price id b.asks }) := by
  unfold OrderBook.cancelOrder
  rw [hf]

/-- C9: `addOrder` then `cancelOrder` is the identity on the book — for an
order whose id is not already resting and a book with no empty levels (the
operations eagerly erase empty levels, so every reachable book satisfies
this), the cancel succeeds and the book is structurally identical to its
pre-add state: same levels, same queues, same aggregates, and hence the same
derived order index. -/
theorem C9_round_trip (b : OrderBook) (o : Order)
    (habs : b.findOrder o.orderId = none) (hne : b.NoEmptyLevels) :
    (b.addOrder o).cancelOrder o.orderId = (true, b) := by
  have hall := (findOrder_none_iff b o.orderId).mp habs
  have hbids : ∀ x ∈ sideOrders b.bids, ¬x.orderId = o.orderId :=
    fun x hx => hall x (List.mem_append.mpr (Or.inl hx))
  have hasks : ∀ x ∈ sideOrders b.asks, ¬x.orderId = o.orderId :=
    fun x hx => hall x (List.mem_append.mpr (Or.inr hx))
  rw [cancelOrder_found (b.addOrder o) o.orderId o (findOrder_addOrder_self b o habs)]
  by_cases hcs : o.side = Side.BUY
  · rw [if_pos hcs]
    unfold OrderBook.addOrder
    rw [if_pos hcs]
    simp only
    rw [sideRemoveOrder_sideInsert bidBefore o.price o b.bids hbids hne.1]
  · rw [if_neg hcs]
    unfold OrderBook.addOrder
    rw [if_neg hcs]
    simp only
    rw [sideRemoveOrder_sideInsert askBefore o.price o b.asks hasks hne.2]

/-- Witness for C9: add a fresh SELL LIMIT 25 @ 150.0000 to the one-ask book
and cancel it again. -/
theorem C9_round_trip_witness :
    c1book.findOrder 2 = none ∧ c1book.NoEmptyLevels ∧
    ((c1book.addOrder (mkOrder 2 Side.SELL OrderType.LIMIT 1500000 25)).cancelOrder 2 =
      (true, c1book)) :=
  ⟨by decide, by decide,
    C9_round_trip c1book (mkOrder 2 Side.SELL OrderType.LIMIT 1500000 25)
      (by decide) (by decide)⟩

/-! ### Helper lemmas: the engine layer -/

theorem lookupAssoc_append_left {α β : Type} [DecidableEq α]
    (l l2 : List (α × β)) (k : α) (v : β) (h : lookupAssoc l k = some v) :
    lookupAssoc (l ++ l2) k = some v := by
  induction l with
  | nil => simp [lookupAssoc] at h
  | cons a l ih =>
      by_cases ha : a.1 = k
      · unfold lookupAssoc at h ⊢
        rw [List.find?_cons_of_pos _ (by simpa using ha)] at h
        rw [List.cons_append, List.find?_cons_of_pos _ (by simpa using ha)]
        exact h
      · unfold lookupAssoc at h ⊢
        rw [List.find?_cons_of_neg _ (by simpa using ha)] at h
        rw [List.cons_append, List.find?_cons_of_neg _ (by simpa using ha)]
        exact ih h

theorem cancelOrder_not_found (b : OrderBook) (id : OrderId)
    (h : b.findOrder id = none) : b.cancelOrder id = (false, b) := by
  unfold OrderBook.cancelOrder
  rw [h]

theorem modifyOrder_not_found (b : OrderBook) (id : OrderId) (p2 : Price)
    (q2 : Quantity) (h : b.findOrder id = none) :
    b.modifyOrder id p2 q2 = (false, b) := by
  unfold OrderBook.modifyOrder
  rw [h]

theorem engine_getOrder_eq (e : EngineState) (id : OrderId) (sym : String)
    (b : OrderBook) (h1 : lookupAssoc e.orderToSymbol id = some sym)
    (h2 : lookupAssoc e.books sym = some b) :
    e.getOrder id = b.getOrder id := by
  unfold EngineState.getOrder
  simp only [h1, h2]

theorem engine_cancelOrder_false (e : EngineState) (id : OrderId) (sym : String)
    (b : OrderBook) (h1 : lookupAssoc e.orderToSymbol id = some sym)
    (h2 : lookupAssoc e.books sym = some b)
    (h3 : (b.cancelOrder id).1 = false) :
    (e.cancelOrder id).1 = false := by
  unfold EngineState.cancelOrder
  simp [h1, h2, h3]

theorem engine_modifyOrder_eq (e : EngineState) (id : OrderId) (sym : String)
    (b : OrderBook) (p2 : Price) (q2 : Quantity)
    (h1 : lookupAssoc e.orderToSymbol id = some sym)
    (h2 : lookupAssoc e.books sym = some b) :
    (e.modifyOrder id p2 q2).1 = (b.modifyOrder id p2 q2).1 := by
  unfold EngineState.modifyOrder
  simp only [h1, h2]

/-- C10: a resting order that fully fills during a `submitOrder` match is
erased from its book's order index at fill time, while the engine's
`orderToSymbol_` map still holds its entry (submit only appends entries and
cancel only erases on success).  Consequently, for an id the engine still
routes to the symbol whose post-submit book no longer indexes it:
`getOrder` returns null and `cancelOrder` / `modifyOrder` return false. -/
theorem C10_engine_drops_filled (e : EngineState) (sym : String) (side : Side)
    (t : OrderType) (price : Price) (qty : Quantity) (stop : Price)
    (mid : OrderId) (p2 : Price) (q2 : Quantity) (bk' : OrderBook)
    (h1 : lookupAssoc e.orderToSymbol mid = some sym)
    (h2 : lookupAssoc ((e.submitOrder sym side t price qty stop).2).books sym =
      some bk')
    (h3 : bk'.findOrder mid = none) :
    lookupAssoc ((e.submitOrder sym side t price qty stop).2).orderToSymbol mid =
      some sym ∧
    ((e.submitOrder sym side t price qty stop).2).getOrder mid = none ∧
    (((e.submitOrder sym side t price qty stop).2).cancelOrder mid).1 = false ∧
    (((e.submitOrder sym side t price qty stop).2).modifyOrder mid p2 q2).1 =
      false := by
  have ho2s : lookupAssoc ((e.submitOrder sym side t price qty stop).2).orderToSymbol
      mid = some sym := by
    have he : ((e.submitOrder sym side t price qty stop).2).orderToSymbol =
        e.orderToSymbol ++ [(e.nextOrderId, sym)] := rfl
    rw [he]
    exact lookupAssoc_append_left _ _ _ _ h1
  refine ⟨ho2s, ?_, ?_, ?_⟩
  · rw [engine_getOrder_eq _ mid sym bk' ho2s h2]
    exact h3
  · refine engine_cancelOrder_false _ mid sym bk' ho2s h2 ?_
    rw [cancelOrder_not_found bk' mid h3]
  · rw [engine_modifyOrder_eq _ mid sym bk' p2 q2 ho2s h2]
    rw [modifyOrder_not_found bk' mid p2 q2 h3]

/-- Witness for C10: submit SELL LIMIT 100 @ 150.0000 (id 1), then apply the
theorem to the second submit (BUY LIMIT 100 @ 150.0000, id 2) which fully
fills order 1 and erases it from the book's index. -/
theorem C10_engine_drops_filled_witness :
    lookupAssoc c10e1.orderToSymbol 1 = some "AAPL" ∧
    (lookupAssoc ((c10e1.submitOrder "AAPL" Side.BUY OrderType.LIMIT 1500000 100 0).2).orderToSymbol
        1 = some "AAPL" ∧
      ((c10e1.submitOrder "AAPL" Side.BUY OrderType.LIMIT 1500000 100 0).2).getOrder 1 = none ∧
      (((c10e1.submitOrder "AAPL" Side.BUY OrderType.LIMIT 1500000 100 0).2).cancelOrder 1).1 =
        false ∧
      (((c10e1.submitOrder "AAPL" Side.BUY OrderType.LIMIT 1500000 100 0).2).modifyOrder 1
          1500000 10).1 = false) :=
  ⟨by decide,
    C10_engine_drops_filled c10e1 "AAPL" Side.BUY OrderType.LIMIT 1500000 100 0 1
      1500000 10
      { bids := [], asks := [] } (by decide) (by decide) (by decide)⟩
